import Mathlib

/-!
Shallow embedding of the transaction collection engine of the tcat
repository (file src/tcat/transaction.py) and verification of the frozen
claims about it.

Modelling conventions:
* Python floats (amounts, balances, statistics) are modelled as rationals.
  Python's round(x, n) (banker's rounding) is modelled exactly on rationals;
  the binary-float representation error of CPython floats is idealised away.
* datetime.date is modelled by a year/month/day record.  Date ordering is the
  lexicographic component order (datetime compares components), day
  differences and weekdays go through the standard civil-calendar ordinal.
* dateutil.rrule stepping: for DAILY/WEEKLY frequencies rrule emits
  dtstart + interval*unit days; for MONTHLY/YEARLY it emits calendar month /
  year steps (with relativedelta day clamping, which is invisible here since
  group always starts monthly stepping on day 1 and yearly stepping on Jan 1).
  The generator below reproduces exactly that with an explicit fuel bound.
* Code that can raise is embedded in Except String; code that returns
  None: Option.
* Python str.lower is modelled on ASCII letters (all comparisons in the
  claims involve ASCII data).
-/

namespace TCat

/-- Decidable equality of Except values (needed to state and evaluate
concrete results of the fallible operations). -/
instance {α : Type} [DecidableEq α] : DecidableEq (Except String α) :=
  fun a b =>
    match a, b with
    | .ok x, .ok y =>
        match decEq x y with
        | isTrue h => isTrue (by rw [h])
        | isFalse h => isFalse (fun hh => by cases hh; exact h rfl)
    | .error x, .error y =>
        match decEq x y with
        | isTrue h => isTrue (by rw [h])
        | isFalse h => isFalse (fun hh => by cases hh; exact h rfl)
    | .ok _, .error _ => isFalse (fun hh => by cases hh)
    | .error _, .ok _ => isFalse (fun hh => by cases hh)

/-! ## Dates (datetime.date) -/

/-- A calendar date as held by datetime.date: year, month (1-12), day. -/
structure PyDate where
  year : Int
  month : Int
  day : Int
deriving DecidableEq

instance : Inhabited PyDate := ⟨⟨1, 1, 1⟩⟩

/-- Leap year test used by the Gregorian calendar (datetime's rule). -/
def isLeap (y : Int) : Bool :=
  y.emod 4 == 0 && (y.emod 100 != 0 || y.emod 400 == 0)

/-- Number of days in a month of a given year (datetime's calendar). -/
def daysInMonth (y m : Int) : Int :=
  if m == 2 then (if isLeap y then 29 else 28)
  else if m == 4 || m == 6 || m == 9 || m == 11 then 30
  else 31

/-- datetime.date comparison is component-lexicographic
(equivalently: chronological, for valid dates).  Less-or-equal test. -/
def PyDate.leB (a b : PyDate) : Bool :=
  if a.year != b.year then a.year < b.year
  else if a.month != b.month then a.month < b.month
  else a.day ≤ b.day

/-- Strict date comparison. -/
def PyDate.ltB (a b : PyDate) : Bool :=
  a.leB b && !(a == b)

/-- Days since 1970-01-01 of a civil date (the standard days-from-civil
algorithm; this is datetime.date.toordinal shifted by the epoch). -/
def daysFromCivil (d : PyDate) : Int :=
  let y := if d.month ≤ 2 then d.year - 1 else d.year
  let era := y.ediv 400
  let yoe := y - era * 400
  let mp := (d.month + 9).emod 12
  let doy := (153 * mp + 2).ediv 5 + d.day - 1
  let doe := yoe * 365 + yoe.ediv 4 - yoe.ediv 100 + doy
  era * 146097 + doe - 719468

/-- Civil date of a day number (inverse of daysFromCivil; the standard
civil-from-days algorithm). -/
def civilFromDays (z0 : Int) : PyDate :=
  let z := z0 + 719468
  let era := z.ediv 146097
  let doe := z - era * 146097
  let yoe := (doe - doe.ediv 1460 + doe.ediv 36524 - doe.ediv 146096).ediv 365
  let y := yoe + era * 400
  let doy := doe - (365 * yoe + yoe.ediv 4 - yoe.ediv 100)
  let mp := (5 * doy + 2).ediv 153
  let dd := doy - (153 * mp + 2).ediv 5 + 1
  let m := mp + (if mp < 10 then 3 else -9)
  ⟨if m ≤ 2 then y + 1 else y, m, dd⟩

/-- date + n days (dateutil relativedelta(days=n) / timedelta). -/
def addDays (d : PyDate) (n : Int) : PyDate :=
  civilFromDays (daysFromCivil d + n)

/-- date + k months with day clamped to the target month's length
(dateutil relativedelta(months=k) semantics). -/
def addMonths (d : PyDate) (k : Int) : PyDate :=
  let tm := d.year * 12 + (d.month - 1) + k
  let y := tm.ediv 12
  let m := tm.emod 12 + 1
  ⟨y, m, min d.day (daysInMonth y m)⟩

/-- date + k years with day clamped (dateutil relativedelta(years=k)). -/
def addYears (d : PyDate) (k : Int) : PyDate :=
  ⟨d.year + k, d.month, min d.day (daysInMonth (d.year + k) d.month)⟩

/-- Python date.weekday(): Monday = 0 .. Sunday = 6.
1970-01-01 (ordinal 0) was a Thursday (= 3). -/
def pyWeekday (d : PyDate) : Int :=
  (daysFromCivil d + 3).emod 7

/-- Validity of a datetime.date value (datetime.MINYEAR = 1,
datetime.MAXYEAR = 9999; month and day in calendar range). -/
def validDate (d : PyDate) : Bool :=
  1 ≤ d.year && d.year ≤ 9999 && 1 ≤ d.month && d.month ≤ 12 &&
    1 ≤ d.day && d.day ≤ daysInMonth d.year d.month

/-! ## ASCII string helpers (str.lower, substring, lexicographic sort) -/

/-- ASCII lower-casing of one character (str.lower restricted to ASCII). -/
def lowerChar (c : Char) : Char :=
  if 65 ≤ c.toNat && c.toNat ≤ 90 then Char.ofNat (c.toNat + 32) else c

/-- ASCII str.lower. -/
def lowerStr (s : String) : String :=
  ⟨s.data.map lowerChar⟩

/-- Python 'needle in hay' for strings, after both sides are lower-cased
at the call sites that need case-insensitivity. -/
def substrOf (needle hay : String) : Bool :=
  decide (needle.data <:+: hay.data)

/-- Case-insensitive substring match: needle.lower() in hay.lower(). -/
def substrCI (needle hay : String) : Bool :=
  substrOf (lowerStr needle) (lowerStr hay)

/-- Code-point lexicographic less-or-equal on char lists (Python string
order restricted to the data appearing here). -/
def leChars : List Char → List Char → Bool
  | [], _ => true
  | _ :: _, [] => false
  | x :: xs, y :: ys =>
      if x.toNat < y.toNat then true
      else if y.toNat < x.toNat then false
      else leChars xs ys

/-- Python string less-or-equal. -/
def strLeB (a b : String) : Bool := leChars a.data b.data

/-- s.startswith(pre). -/
def strStarts (s pre : String) : Bool :=
  decide (pre.data <+: s.data)

/-- Inserts x after every leading element y with le y x (the insertion step
of a stable insertion sort). -/
def insertLe {α : Type} (le : α → α → Bool) (x : α) : List α → List α
  | [] => [x]
  | y :: rest => if le y x then y :: insertLe le x rest else x :: y :: rest

/-- Stable sort by a total boolean comparison.  Python's sorted() is the
(unique) stable sort by the given key; insertion sort with insertion after
equal elements computes exactly that function. -/
def stableSort {α : Type} (le : α → α → Bool) (l : List α) : List α :=
  l.foldl (fun acc x => insertLe le x acc) []

/-! ## Transaction (the dataclass) -/

/-- One transaction record.  Field order and defaults follow the dataclass.
name, note and tags are declared with compare=False in the source, so the
dataclass equality used by merge compares only the first six fields; that
identity equality is Transaction.identEq below, while Lean's structural
equality compares all fields. -/
structure Transaction where
  account : String
  amount : ℚ
  balance : ℚ
  bank : String
  date : PyDate
  desc : String
  name : Option String := none
  note : Option String := none
  tags : List String := []
deriving DecidableEq

instance : Inhabited Transaction :=
  ⟨{ account := "", amount := 0, balance := 0, bank := "",
     date := ⟨1, 1, 1⟩, desc := "" }⟩

/-- The dataclass __eq__: compares the compare=True fields only
(account, amount, balance, bank, date, desc). -/
def Transaction.identEq (a b : Transaction) : Bool :=
  a.account == b.account && a.amount == b.amount && a.balance == b.balance &&
    a.bank == b.bank && a.date == b.date && a.desc == b.desc

/-- is_named(): name is not None and not the empty string. -/
def Transaction.isNamed (t : Transaction) : Bool :=
  match t.name with
  | none => false
  | some s => !(s == "")

/-- has_note(): note is not None and not the empty string. -/
def Transaction.hasNote (t : Transaction) : Bool :=
  match t.note with
  | none => false
  | some s => !(s == "")

/-- is_categorized(): at least one tag. -/
def Transaction.isCategorized (t : Transaction) : Bool :=
  !t.tags.isEmpty

namespace Transactions

/-- sort(): sorted(items, key=lambda x: x['date']) — stable sort by date. -/
def sort (l : List Transaction) : List Transaction :=
  stableSort (fun a b => a.date.leB b.date) l

/-- sort(key='amount'). -/
def sortByAmount (l : List Transaction) : List Transaction :=
  stableSort (fun a b => decide (a.amount ≤ b.amount)) l

/-- sort(key='balance'). -/
def sortByBalance (l : List Transaction) : List Transaction :=
  stableSort (fun a b => decide (a.balance ≤ b.balance)) l

/-- max(self.dates()): the most recent date of a collection (meaningful for
nonempty input; filter only evaluates it when the collection has at least
two transactions). -/
def maxDate (l : List Transaction) : PyDate :=
  match l with
  | [] => ⟨1, 1, 1⟩
  | h :: tl => tl.foldl (fun m t => if m.leB t.date then t.date else m) h.date

/-- banks(): list(set(t.bank for t in self)); Python set iteration order is
unspecified, dedup order is irrelevant to every claim proved here. -/
def banks (l : List Transaction) : List String :=
  (l.map (fun t => t.bank)).dedup

/-- accounts(bank): accounts, optionally restricted to one bank
(case-insensitively); a None or empty bank argument disables the
restriction, exactly as the truthiness test in the source does. -/
def accounts (l : List Transaction) (bank : Option String) : List String :=
  let acc : List String :=
    match bank with
    | some b =>
        if b == "" then l.map (fun t => t.account)
        else (l.filter (fun t => lowerStr t.bank == lowerStr b)).map
          (fun t => t.account)
    | none => l.map (fun t => t.account)
  acc.dedup

/-- descs(): list(set(t.desc for t in self)). -/
def descs (l : List Transaction) : List String :=
  (l.map (fun t => t.desc)).dedup

/-- names(): all non-None names (the empty string is not excluded). -/
def names (l : List Transaction) : List String :=
  (l.filterMap (fun t => t.name)).dedup

end Transactions

/-! ## Rounding and list statistics (Python round / statistics module) -/

/-- Python round-half-to-even of a rational to an integer. -/
def roundHalfEven (q : ℚ) : Int :=
  let f := ⌊q⌋
  let r := q - (f : ℚ)
  if r < 1/2 then f
  else if 1/2 < r then f + 1
  else if f.emod 2 == 0 then f else f + 1

/-- Python round(x, nd) on exact rationals. -/
def pyRound (q : ℚ) (nd : Nat) : ℚ :=
  (roundHalfEven (q * (10 : ℚ) ^ nd) : ℚ) / (10 : ℚ) ^ nd

/-- statistics.mean (callers guarantee a nonempty list). -/
def meanQ (l : List ℚ) : ℚ :=
  l.sum / (l.length : ℚ)

/-- statistics.median: middle element of the sorted values, or the average
of the two middle elements for an even count. -/
def medianQ (l : List ℚ) : ℚ :=
  let s := stableSort (fun a b => decide (a ≤ b)) l
  let n := s.length
  if n % 2 == 1 then s.getD (n / 2) 0
  else (s.getD (n / 2 - 1) 0 + s.getD (n / 2) 0) / 2

/-- round(sqrt w) computed exactly: the round-half-to-even nearest integer
of the (irrational) square root of a nonnegative rational.  floorSqrt is
the integer part; the half comparison is decided by comparing 4*w with
(2*floorSqrt+1)^2. -/
def roundSqrt (w : ℚ) : Nat :=
  let m := Nat.sqrt (w.num.toNat * w.den) / w.den
  let c := (4 : ℚ) * w
  let tq := (((2 * m + 1 : Nat) : ℚ)) ^ 2
  if c < tq then m
  else if tq < c then m + 1
  else if m % 2 == 0 then m else m + 1

/-- round(statistics.stdev(l), nd): the sample standard deviation
sqrt(sum((x-mean)^2)/(n-1)) rounded half-to-even to nd decimal places,
computed exactly on rationals (callers guarantee 2 <= n). -/
def stdevRound (l : List ℚ) (nd : Nat) : ℚ :=
  let mu := meanQ l
  let v := (l.map (fun x => (x - mu) ^ 2)).sum / ((l.length : ℚ) - 1)
  ((roundSqrt ((10 : ℚ) ^ (2 * nd) * v) : ℚ)) / (10 : ℚ) ^ nd

namespace Transactions

/-- The amount column, optionally in absolute value. -/
def amounts (l : List Transaction) (absV : Bool) : List ℚ :=
  l.map (fun t => if absV then |t.amount| else t.amount)

/-- The balance column, optionally in absolute value. -/
def balances (l : List Transaction) (absV : Bool) : List ℚ :=
  l.map (fun t => if absV then |t.balance| else t.balance)

/-- max_amount(): None on the empty collection, otherwise the maximum
(the source applies no rounding here). -/
def max_amount (l : List Transaction) (absV : Bool) : Option ℚ :=
  if l.length < 1 then none else (amounts l absV).max?

/-- max_balance(). -/
def max_balance (l : List Transaction) (absV : Bool) : Option ℚ :=
  if l.length < 1 then none else (balances l absV).max?

/-- min_amount(). -/
def min_amount (l : List Transaction) (absV : Bool) : Option ℚ :=
  if l.length < 1 then none else (amounts l absV).min?

/-- min_balance(). -/
def min_balance (l : List Transaction) (absV : Bool) : Option ℚ :=
  if l.length < 1 then none else (balances l absV).min?

/-- mean_amount(): rounded to 2 decimals. -/
def mean_amount (l : List Transaction) (absV : Bool) : Option ℚ :=
  if l.length < 1 then none else some (pyRound (meanQ (amounts l absV)) 2)

/-- mean_balance(). -/
def mean_balance (l : List Transaction) (absV : Bool) : Option ℚ :=
  if l.length < 1 then none else some (pyRound (meanQ (balances l absV)) 2)

/-- median_amount(). -/
def median_amount (l : List Transaction) (absV : Bool) : Option ℚ :=
  if l.length < 1 then none else some (pyRound (medianQ (amounts l absV)) 2)

/-- median_balance(). -/
def median_balance (l : List Transaction) (absV : Bool) : Option ℚ :=
  if l.length < 1 then none else some (pyRound (medianQ (balances l absV)) 2)

/-- stdev_amount(): None when empty, 0.0 for a single element, otherwise
the sample standard deviation rounded to 2 decimals. -/
def stdev_amount (l : List Transaction) (absV : Bool) : Option ℚ :=
  if l.length < 1 then none
  else if l.length == 1 then some 0
  else some (stdevRound (amounts l absV) 2)

/-- stdev_balance(). -/
def stdev_balance (l : List Transaction) (absV : Bool) : Option ℚ :=
  if l.length < 1 then none
  else if l.length == 1 then some 0
  else some (stdevRound (balances l absV) 2)

/-- total_amount(): 0.0 when empty, otherwise the rounded sum. -/
def total_amount (l : List Transaction) (absV : Bool) : ℚ :=
  if l.length < 1 then 0 else pyRound (amounts l absV).sum 2

/-- total_balance(). -/
def total_balance (l : List Transaction) (absV : Bool) : ℚ :=
  if l.length < 1 then 0 else pyRound (balances l absV).sum 2

/-- The 'count' entry of statistics(): len(self.items). -/
def count (l : List Transaction) : Nat :=
  l.length

end Transactions

/-! ## Bucketing engine (group) -/

/-- Keys of the dictionary returned by group: strings (desc/name), date
ranges, numeric ranges, (bank, account) pairs, sorted tag tuples, and the
Python None key used for unnamed/untagged transactions. -/
inductive GroupKey where
  | kStr (s : String)
  | kDates (lo hi : PyDate)
  | kBins (lo hi : ℚ)
  | kPair (bank account : String)
  | kTags (ts : List String)
  | kNone
deriving DecidableEq

/-- The four date grouping frequencies. -/
inductive DMode where
  | daily
  | weekly
  | monthly
  | yearly
deriving DecidableEq

/-- The freq dictionary lookup in group: only the four date-* modes are
present; any other mode starting with date- raises KeyError. -/
def parseDMode (s : String) : Option DMode :=
  if s == "date-daily" then some .daily
  else if s == "date-monthly" then some .monthly
  else if s == "date-weekly" then some .weekly
  else if s == "date-yearly" then some .yearly
  else none

/-- dtstart of the rrule: the first (date-sorted) transaction's date for
daily/weekly, its month's day 1 for monthly, its year's Jan 1 for yearly. -/
def alignStart (m : DMode) (d : PyDate) : PyDate :=
  match m with
  | .daily => d
  | .weekly => d
  | .monthly => ⟨d.year, d.month, 1⟩
  | .yearly => ⟨d.year, 1, 1⟩

/-- One calendar unit (the relativedelta added to the last date to form the
rrule until bound). -/
def addUnit (m : DMode) (d : PyDate) : PyDate :=
  match m with
  | .daily => addDays d 1
  | .weekly => addDays d 7
  | .monthly => addMonths d 1
  | .yearly => addYears d 1

/-- One rrule step of the given interval (rrule DAILY/WEEKLY with interval k
advances k/7k days; MONTHLY/YEARLY advance k calendar months/years). -/
def stepBy (m : DMode) (k : Nat) (d : PyDate) : PyDate :=
  match m with
  | .daily => addDays d k
  | .weekly => addDays d (7 * k)
  | .monthly => addMonths d k
  | .yearly => addYears d k

/-- Fuel-bounded generator of the rrule occurrence list: emits dates from
cur by step while not past the until bound.  The fuel passed by group is
(strictly) more than the number of occurrences, so the guard, not the fuel,
terminates the list. -/
def dateStepsAux (step : PyDate → PyDate) (untilD : PyDate) :
    Nat → PyDate → List PyDate
  | 0, _ => []
  | fuel + 1, cur =>
      if cur.leB untilD then cur :: dateStepsAux step untilD fuel (step cur)
      else []

/-- The rrule occurrence list for group's date modes. -/
def dateSteps (m : DMode) (interval : Nat) (start untilD : PyDate) :
    List PyDate :=
  dateStepsAux (stepBy m interval) untilD
    ((daysFromCivil untilD - daysFromCivil start).toNat + 2) start

/-- Consecutive pairs of a list: [(s0,s1), (s1,s2), ...]. -/
def pairsOf : List PyDate → List (PyDate × PyDate) :=
  fun l =>
    match l with
    | [] => []
    | [_] => []
    | a :: b :: rest => (a, b) :: pairsOf (b :: rest)

/-- The consume-once bucket loop shared by the date and the amount/balance
branches of group: for each labelled range, select the in-range items,
remove them from the working list, and keep the bucket unless it is empty
and empty buckets were not requested.  The source removes the selected
items one by one with items.remove(t); since range membership depends only
on the (value) equality class of a transaction and list.remove removes an
equal element, the remaining list is exactly the out-of-range sublist. -/
def consumeFold (includeEmpty : Bool) :
    List (GroupKey × (Transaction → Bool)) → List Transaction →
      List (GroupKey × List Transaction)
  | [], _ => []
  | (k, p) :: rest, items =>
      let sel := items.filter p
      if !includeEmpty && sel.isEmpty then consumeFold includeEmpty rest items
      else (k, sel) ::
        consumeFold includeEmpty rest (items.filter (fun t => !(p t)))

/-- numpy.arange(start, stop, step) over exact rationals (step > 0 in every
call group makes; numpy rejects step 0). -/
def arangeQ (start stop step : ℚ) : List ℚ :=
  if step ≤ 0 then []
  else (List.range (⌈(stop - start) / step⌉).toNat).map
    (fun k => start + (k : ℚ) * step)

/-- The labelled numeric ranges of the amount/balance branches. -/
def binRanges (first last drange : ℚ) (value : Transaction → ℚ) :
    List (GroupKey × (Transaction → Bool)) :=
  (arangeQ (⌊first⌋ : ℚ) ((⌈last⌉ : ℚ) + drange + 2) drange).map
    (fun rl =>
      let lo := pyRound rl 2
      let hi := pyRound (lo + drange) 2
      (.kBins lo hi, fun t => decide (lo ≤ value t) && decide (value t < hi)))

/-- Appends a transaction to the bucket of its key, creating the bucket at
the end on first use (Python dict insertion-order semantics). -/
def assocAppend (acc : List (GroupKey × List Transaction)) (k : GroupKey)
    (t : Transaction) : List (GroupKey × List Transaction) :=
  if acc.any (fun p => p.1 == k) then
    acc.map (fun p => if p.1 == k then (p.1, p.2 ++ [t]) else p)
  else acc ++ [(k, [t])]

/-- The tags branch of group: each transaction goes to the bucket of its
sorted tag tuple; untagged transactions go to the None bucket when empty
groups are requested and are dropped otherwise. -/
def tagFold (includeEmpty : Bool) (items : List Transaction) :
    List (GroupKey × List Transaction) :=
  items.foldl
    (fun acc i =>
      if !i.tags.isEmpty then
        assocAppend acc (.kTags (stableSort strLeB i.tags)) i
      else if includeEmpty then assocAppend acc .kNone i
      else acc)
    []

namespace Transactions

/-- group(by, drange, include_empty, interval).  Faithful dispatcher: an
unsupported mode not starting with date- falls through every branch and
silently returns the empty mapping; an unsupported date-* mode raises
(KeyError on the freq dictionary). -/
def group (by_ : String) (drange : ℚ) (includeEmpty : Bool) (interval : Nat)
    (l : List Transaction) :
    Except String (List (GroupKey × List Transaction)) :=
  if l.length < 1 then .ok []
  else
    let items :=
      if by_ == "amount" then sortByAmount l
      else if by_ == "balance" then sortByBalance l
      else sort l
    if by_ == "bank-account" then
      .ok ((banks l).flatMap (fun bank =>
        (accounts l (some bank)).map (fun account =>
          (.kPair bank account,
            items.filter (fun t => t.bank == bank && t.account == account)))))
    else if strStarts by_ ("date-") then
      match parseDMode by_ with
      | none => .error (("KeyError: ") ++ by_)
      | some m =>
          let first := items.headI
          let last := items.getLastI
          let start := alignStart m first.date
          let untilD := addUnit m last.date
          let ranges := (pairsOf (dateSteps m interval start untilD)).map
            (fun r => ((GroupKey.kDates r.1 r.2),
              fun t => r.1.leB t.date && t.date.ltB r.2))
          .ok (consumeFold includeEmpty ranges items)
    else if by_ == "amount" then
      .ok (consumeFold includeEmpty
        (binRanges (items.headI.amount) (items.getLastI.amount) drange
          (fun t => t.amount)) items)
    else if by_ == "balance" then
      .ok (consumeFold includeEmpty
        (binRanges (items.headI.balance) (items.getLastI.balance) drange
          (fun t => t.balance)) items)
    else if by_ == "desc" then
      .ok ((descs l).map (fun d =>
        (.kStr d, items.filter (fun t => t.desc == d))))
    else if by_ == "name" then
      .ok (((names l).map (fun n =>
          (GroupKey.kStr n, items.filter (fun t => t.name == some n)))) ++
        (if includeEmpty then
          [(.kNone, items.filter (fun t => !t.isNamed))] else []))
    else if by_ == "tags" then
      .ok (tagFold includeEmpty items)
    else .ok []

/-- The valid statistic scales. -/
def freqScales : List String :=
  ["daily", "weekly", "monthly", "yearly"]

/-- mean_freq(scale): None when empty (checked before the scale), an
exception on a bad scale, otherwise the mean per-bucket count over date
grouping with empty buckets included, rounded to 4 decimals. -/
def mean_freq (l : List Transaction) (scale : String) :
    Except String (Option ℚ) :=
  if l.length < 1 then .ok none
  else if !(freqScales.contains scale) then
    .error ("please specify an appropriate time scale")
  else
    match group (("date-") ++ scale) 100 true 1 l with
    | .error e => .error e
    | .ok grouped =>
        .ok (some (pyRound
          (meanQ (grouped.map (fun kv => ((kv.2.length : ℚ))))) 4))

/-- median_freq(scale). -/
def median_freq (l : List Transaction) (scale : String) :
    Except String (Option ℚ) :=
  if l.length < 1 then .ok none
  else if !(freqScales.contains scale) then
    .error ("please specify an appropriate time scale")
  else
    match group (("date-") ++ scale) 100 true 1 l with
    | .error e => .error e
    | .ok grouped =>
        .ok (some (pyRound
          (medianQ (grouped.map (fun kv => ((kv.2.length : ℚ))))) 4))

/-- stdev_freq(scale): the scale is validated before anything else; None
for an empty grouping, 0.0 for a single bucket, otherwise the sample
standard deviation of the per-bucket counts rounded to 4 decimals. -/
def stdev_freq (l : List Transaction) (scale : String) :
    Except String (Option ℚ) :=
  if !(freqScales.contains scale) then
    .error ("please specify an appropriate time scale")
  else
    match group (("date-") ++ scale) 100 true 1 l with
    | .error e => .error e
    | .ok grouped =>
        if grouped.length < 1 then .ok none
        else if grouped.length == 1 then .ok (some 0)
        else .ok (some (stdevRound
          (grouped.map (fun kv => ((kv.2.length : ℚ)))) 4))

end Transactions

/-! ## Merge/dedup engine -/

/-- The in-place metadata merge performed on the existing accumulator entry
dc when an incoming duplicate ct is found: each of name/note/tags is taken
from the incoming transaction when it is present there or missing in the
accumulator entry. -/
def mergeMeta (dc ct : Transaction) : Transaction :=
  { dc with
    name := if ct.isNamed || !dc.isNamed then ct.name else dc.name,
    note := if ct.hasNote || !dc.hasNote then ct.note else dc.note,
    tags := if ct.isCategorized || !dc.isCategorized then ct.tags else dc.tags }

/-- One step of the merge loop: append ct if no accumulator entry equals it
under the dataclass (identity) equality, otherwise update the first equal
entry in place. -/
def mergeStep (merged : List Transaction) (ct : Transaction) :
    List Transaction :=
  if merged.any (fun d => d.identEq ct) then
    let i := merged.findIdx (fun d => d.identEq ct)
    merged.set i (mergeMeta (merged.getD i ct) ct)
  else merged ++ [ct]

namespace Transactions

/-- merge(*args): fold every collection, in order, through the dedup loop,
then sort the result by date. -/
def merge (colls : List (List Transaction)) : List Transaction :=
  sort (colls.foldl (fun acc c => c.foldl mergeStep acc) [])

end Transactions

/-! ## Filter (the predicate resolver) -/

/-- The concrete (non-predicate-function) shapes a filter criterion value
can take: strings, lists of strings, tuples of date strings, tuples of
numbers, integers, dates, and booleans (the negate flag; also accepted for
the date criterion because bool is a subclass of int in Python). -/
inductive CritVal where
  | vStr (s : String)
  | vList (l : List String)
  | vStrPair (a b : String)
  | vNumPair (a b : ℚ)
  | vInt (n : Int)
  | vDate (d : PyDate)
  | vBool (b : Bool)
deriving DecidableEq

/-- Python truthiness of a criterion value. -/
def CritVal.truthy : CritVal → Bool
  | .vStr s => !(s == "")
  | .vList l => !l.isEmpty
  | .vStrPair _ _ => true
  | .vNumPair _ _ => true
  | .vInt n => !(n == 0)
  | .vDate _ => true
  | .vBool b => b

/-- The ALLOWED_KEYS list of filter. -/
def ALLOWED_KEYS : List String :=
  ["account", "amount", "balance", "bank", "date", "desc", "name",
   "negate", "note", "tags"]

/-- Splits a character list at every '/' (str.split('/')). -/
def splitSlash : List Char → List (List Char)
  | [] => [[]]
  | c :: rest =>
      if c == '/' then [] :: splitSlash rest
      else
        match splitSlash rest with
        | [] => [[c]]
        | g :: gs => (c :: g) :: gs

/-- Digit-string to Nat (None when empty or containing a non-digit). -/
def parseNatChars (cs : List Char) : Option Nat :=
  if cs.isEmpty || !(cs.all (fun c => c.isDigit)) then none
  else some (cs.foldl (fun a c => a * 10 + (c.toNat - 48)) 0)

/-- Python int(s) restricted to optionally-negated decimal literals (the
only shapes reaching it here); anything else raises ValueError. -/
def pyInt (cs : List Char) : Except String Int :=
  match cs with
  | '-' :: rest =>
      match parseNatChars rest with
      | some n => .ok (-(n : Int))
      | none => .error ("ValueError: invalid literal for int")
  | _ =>
      match parseNatChars cs with
      | some n => .ok ((n : Int))
      | none => .error ("ValueError: invalid literal for int")

/-- Parses every group with int(), left to right, first error wins. -/
def parseInts : List (List Char) → Except String (List Int)
  | [] => .ok []
  | c :: rest =>
      match pyInt c with
      | .error e => .error e
      | .ok v =>
          match parseInts rest with
          | .error e => .error e
          | .ok vs => .ok (v :: vs)

/-- list(map(int, s.split('/'))). -/
def parseIntsSlash (s : String) : Except String (List Int) :=
  parseInts (splitSlash s.data)

/-- Python list indexing with negative-index wrap-around; out of range
raises IndexError. -/
def pyIndex (l : List Int) (i : Int) : Except String Int :=
  if 0 ≤ i && i < (l.length : Int) then .ok (l.getD i.toNat 0)
  else if -(l.length : Int) ≤ i && i < 0 then
    .ok (l.getD (i + (l.length : Int)).toNat 0)
  else .error ("IndexError: list index out of range")

/-- The module-level DAYS_IN_MONTH table (non-leap). -/
def DAYS_IN_MONTH : List Int :=
  [31, 28, 31, 30, 31, 30, 31, 31, 30, 31, 30, 31]

/-- datetime.date(y, m, d): validates its arguments and raises ValueError
on an invalid date. -/
def mkDate (y m d : Int) : Except String PyDate :=
  if validDate ⟨y, m, d⟩ then .ok ⟨y, m, d⟩
  else .error ("ValueError: invalid date")

/-- The bank criterion check: returns whether the transaction survives
(false models the continue statement).  Non-string shapes reach the
call-the-value branch and raise TypeError for every shape modelled here. -/
def checkBank (v : CritVal) (negate : Bool) (t : Transaction) :
    Except String Bool :=
  match v with
  | .vStr s =>
      let c := lowerStr s == lowerStr t.bank
      .ok (if negate then !c else c)
  | _ => .error ("TypeError: value is not callable")

/-- The account criterion check. -/
def checkAccount (v : CritVal) (negate : Bool) (t : Transaction) :
    Except String Bool :=
  match v with
  | .vStr s =>
      let c := lowerStr s == lowerStr t.account
      .ok (if negate then !c else c)
  | _ => .error ("TypeError: value is not callable")

/-- The tags criterion check: a single tag must be present, or at least one
of a list of tags must be present. -/
def checkTags (v : CritVal) (negate : Bool) (t : Transaction) :
    Except String Bool :=
  match v with
  | .vStr s =>
      let c := t.tags.contains s
      .ok (if negate then !c else c)
  | .vList ts =>
      let c := ts.any (fun tag => t.tags.contains tag)
      .ok (if negate then !c else c)
  | _ => .error ("TypeError: value is not callable")

/-- The name criterion check: case-insensitive substring on named
transactions; unnamed transactions never match positively. -/
def checkName (v : CritVal) (negate : Bool) (t : Transaction) :
    Except String Bool :=
  match v with
  | .vStr s =>
      let c := t.isNamed && substrCI s (t.name.getD (""))
      .ok (if negate then !c else c)
  | _ => .error ("TypeError: value is not callable")

/-- The desc criterion check: case-insensitive substring. -/
def checkDesc (v : CritVal) (negate : Bool) (t : Transaction) :
    Except String Bool :=
  match v with
  | .vStr s =>
      let c := substrCI s t.desc
      .ok (if negate then !c else c)
  | _ => .error ("TypeError: value is not callable")

/-- The note criterion check. -/
def checkNote (v : CritVal) (negate : Bool) (t : Transaction) :
    Except String Bool :=
  match v with
  | .vStr s =>
      let c := t.hasNote && substrCI s (t.note.getD (""))
      .ok (if negate then !c else c)
  | _ => .error ("TypeError: value is not callable")

/-- The amount criterion check: the deposit/withdrawal string tokens (two
independent if blocks in the source, hence a conjunction of two tests), an
inclusive numeric range tuple, or TypeError otherwise. -/
def checkAmount (v : CritVal) (negate : Bool) (t : Transaction) :
    Except String Bool :=
  match v with
  | .vStr s =>
      let ls := lowerStr s
      let p1 :=
        if ls == ("+") || ls == ("d") || ls == ("deposit") then
          (if negate then !(decide (0 < t.amount)) else decide (0 < t.amount))
        else true
      let p2 :=
        if ls == ("-") || ls == ("w") || ls == ("withdrawal") then
          (if negate then !(decide (t.amount < 0)) else decide (t.amount < 0))
        else true
      .ok (p1 && p2)
  | .vNumPair a b =>
      let c := decide (a ≤ t.amount) && decide (t.amount ≤ b)
      .ok (if negate then !c else c)
  | _ => .error ("TypeError: value is not callable")

/-- The partial-date-string check against a parsed component list sd, in
the positive direction: the transaction survives unless a provided
component differs. -/
def dateStrPos (sd : List Int) (t : Transaction) : Bool :=
  !(decide (1 ≤ sd.length) && !(t.date.year == sd.getD 0 0)) &&
  !(decide (2 ≤ sd.length) && !(t.date.month == sd.getD 1 0)) &&
  !(decide (3 ≤ sd.length) && !(t.date.day == sd.getD 2 0))

/-- The partial-date-string check in the negated direction: the transaction
survives only if every provided component differs. -/
def dateStrNeg (sd : List Int) (t : Transaction) : Bool :=
  !(decide (1 ≤ sd.length) && (t.date.year == sd.getD 0 0)) &&
  !(decide (2 ≤ sd.length) && (t.date.month == sd.getD 1 0)) &&
  !(decide (3 ≤ sd.length) && (t.date.day == sd.getD 2 0))

/-- Completes the lower bound of a date-range tuple: missing month and day
default to 1. -/
def padLower (sd : List Int) : List Int :=
  sd ++ List.replicate (3 - sd.length) 1

/-- Completes the upper bound of a date-range tuple: a missing month
defaults to 12 and a missing day to the DAYS_IN_MONTH entry of the month
(the table is consulted with Python list indexing, so month 0 silently
wraps to the December entry and months outside -11..12 raise IndexError). -/
def padUpper (sd : List Int) : Except String (List Int) :=
  let sd2 := if sd.length < 2 then sd ++ [12] else sd
  if sd2.length < 3 then
    match pyIndex DAYS_IN_MONTH (sd2.getD 1 0 - 1) with
    | .error e => .error e
    | .ok dm => .ok (sd2 ++ [dm])
  else .ok sd2

/-- The date criterion check: an int (or bool) selects the n most recent
days, a partial date string matches on its components, a tuple of partial
date strings is an inclusive range, a date matches exactly. -/
def checkDate (v : CritVal) (negate : Bool) (mrd : PyDate)
    (t : Transaction) : Except String Bool :=
  match v with
  | .vInt n =>
      let c := decide (daysFromCivil mrd - daysFromCivil t.date ≤ n)
      .ok (if negate then !c else c)
  | .vBool b =>
      let c := decide (daysFromCivil mrd - daysFromCivil t.date ≤
        (if b then (1 : Int) else 0))
      .ok (if negate then !c else c)
  | .vStr s =>
      match parseIntsSlash s with
      | .error e => .error e
      | .ok sd => .ok (if negate then dateStrNeg sd t else dateStrPos sd t)
  | .vStrPair a b =>
      match parseIntsSlash a with
      | .error e => .error e
      | .ok sd1 =>
          match parseIntsSlash b with
          | .error e => .error e
          | .ok sd2 =>
              match padUpper sd2 with
              | .error e => .error e
              | .ok sd2p =>
                  let sd1p := padLower sd1
                  match mkDate (sd1p.getD 0 0) (sd1p.getD 1 0)
                      (sd1p.getD 2 0) with
                  | .error e => .error e
                  | .ok lo =>
                      match mkDate (sd2p.getD 0 0) (sd2p.getD 1 0)
                          (sd2p.getD 2 0) with
                      | .error e => .error e
                      | .ok hi =>
                          let c := lo.leB t.date && t.date.leB hi
                          .ok (if negate then !c else c)
  | .vDate d =>
      let c := t.date == d
      .ok (if negate then !c else c)
  | _ => .error ("TypeError: value is not callable")

/-- Looks a keyword argument up by name. -/
def lookupKw (kw : List (String × CritVal)) (k : String) : Option CritVal :=
  (kw.find? (fun p => p.1 == k)).map (fun p => p.2)

/-- Sequencing of one optional criterion check with the rest: an absent
criterion is skipped, a failed check short-circuits to false (the continue
statement skips the remaining checks), an error propagates. -/
def chk (o : Option CritVal) (f : CritVal → Except String Bool)
    (rest : Except String Bool) : Except String Bool :=
  match o with
  | none => rest
  | some v =>
      match f v with
      | .error e => .error e
      | .ok false => .ok false
      | .ok true => rest

/-- The whole per-transaction keep decision of the filter loop, in the
source's fixed criterion order. -/
def keepT (kw : List (String × CritVal)) (negate : Bool) (mrd : PyDate)
    (t : Transaction) : Except String Bool :=
  chk (lookupKw kw ("bank")) (fun v => checkBank v negate t)
    (chk (lookupKw kw ("account")) (fun v => checkAccount v negate t)
      (chk (lookupKw kw ("tags")) (fun v => checkTags v negate t)
        (chk (lookupKw kw ("name")) (fun v => checkName v negate t)
          (chk (lookupKw kw ("desc")) (fun v => checkDesc v negate t)
            (chk (lookupKw kw ("note")) (fun v => checkNote v negate t)
              (chk (lookupKw kw ("amount")) (fun v => checkAmount v negate t)
                (chk (lookupKw kw ("date"))
                  (fun v => checkDate v negate mrd t) (.ok true))))))))

/-- The filter loop over the transactions: keeps survivors in order,
propagating the first error. -/
def filterLoop (keep : Transaction → Except String Bool) :
    List Transaction → Except String (List Transaction)
  | [] => .ok []
  | t :: rest =>
      match keep t with
      | .error e => .error e
      | .ok true =>
          match filterLoop keep rest with
          | .error e => .error e
          | .ok r => .ok (t :: r)
      | .ok false => filterLoop keep rest

namespace Transactions

/-- filter(**kwargs): rejects unknown keyword names, passes collections of
size 0 or 1 through unchanged, and otherwise keeps the transactions
surviving every (possibly negated) criterion check. -/
def filter (kw : List (String × CritVal)) (l : List Transaction) :
    Except String (List Transaction) :=
  match kw.find? (fun p => !(ALLOWED_KEYS.contains p.1)) with
  | some p => .error (("unknown filter key ") ++ p.1)
  | none =>
      if l.length < 2 then .ok l
      else
        let mrd := maxDate l
        let negate :=
          match lookupKw kw ("negate") with
          | some v => v.truthy
          | none => false
        filterLoop (keepT kw negate mrd) l

end Transactions

/-! ## Serialization (to_json / from_json)

The JSON wire format is an array of objects with the nine keys account,
amount, balance, bank, date, desc, name, note, tags, where date is the
strftime('%Y/%m/%d') string and name/note may be null.  json.dumps/loads
round-trips the scalar values involved exactly, so the JSON text layer is
modelled by the structured record below (one record per array element,
one field per key) and only the date-string formatting/parsing, the lossy
direction, is modelled at the character level. -/

/-- One serialized transaction: the dictionary built by to_datestr_dict,
with the date already formatted as a string. -/
structure TransactionJson where
  account : String
  amount : ℚ
  balance : ℚ
  bank : String
  date : String
  desc : String
  name : Option String
  note : Option String
  tags : List String
deriving DecidableEq

/-- The decimal digit character of d (0-9). -/
def dChar (d : Nat) : Char :=
  Char.ofNat (48 + d)

/-- The four decimal digits of a year 1000-9999. -/
def digits4 (n : Nat) : List Char :=
  [dChar (n / 1000 % 10), dChar (n / 100 % 10), dChar (n / 10 % 10),
   dChar (n % 10)]

/-- The two zero-padded decimal digits of a month or day (%m, %d). -/
def digits2 (n : Nat) : List Char :=
  [dChar (n / 10 % 10), dChar (n % 10)]

/-- strftime %Y on this platform: the year's decimal digits without
padding, so years below 1000 render with fewer than four characters
("42", "999"). A datetime year is 1..9999 (MINYEAR..MAXYEAR), so the
magnitude cases below cover the whole domain. -/
def digitsYear (n : Nat) : List Char :=
  if n < 10 then [dChar n]
  else if n < 100 then [dChar (n / 10), dChar (n % 10)]
  else if n < 1000 then [dChar (n / 100), dChar (n / 10 % 10), dChar (n % 10)]
  else digits4 n

/-- strftime('%Y/%m/%d'): unpadded year, two-digit month and day. -/
def dateToStr (d : PyDate) : String :=
  ⟨digitsYear d.year.toNat ++
    '/' :: (digits2 d.month.toNat ++ '/' :: digits2 d.day.toNat)⟩

/-- datetime.strptime(s, '%Y/%m/%d').date(): three slash-separated digit
groups forming a valid date. _strptime compiles %Y to the regex
\d\d\d\d, so the year group must be exactly four digits, while %m and %d
compile to (\d\d|\d) and accept one or two digits; anything else raises
ValueError. -/
def parseDate (s : String) : Except String PyDate :=
  match splitSlash s.data with
  | [ys, ms, ds] =>
      if ys.length == 4 && decide (ms.length ≤ 2) && decide (ds.length ≤ 2) then
        match parseNatChars ys, parseNatChars ms, parseNatChars ds with
        | some y, some m, some d =>
            mkDate ((y : Int)) ((m : Int)) ((d : Int))
        | _, _, _ => .error ("ValueError: time data does not match format")
      else .error ("ValueError: time data does not match format")
  | _ => .error ("ValueError: time data does not match format")

/-- to_datestr_dict(): the serialized record of one transaction. -/
def Transaction.toDatestrDict (t : Transaction) : TransactionJson :=
  { account := t.account, amount := t.amount, balance := t.balance,
    bank := t.bank, date := dateToStr t.date, desc := t.desc,
    name := t.name, note := t.note, tags := t.tags }

/-- Transaction.from_datestr_dict(): parses the date string back. -/
def Transaction.fromDatestrDict (j : TransactionJson) :
    Except String Transaction :=
  match parseDate j.date with
  | .error e => .error e
  | .ok d =>
      .ok { account := j.account, amount := j.amount, balance := j.balance,
            bank := j.bank, date := d, desc := j.desc, name := j.name,
            note := j.note, tags := j.tags }

namespace Transactions

/-- Transactions.to_json(): the serialized array. -/
def to_json (l : List Transaction) : List TransactionJson :=
  l.map Transaction.toDatestrDict

/-- Transactions.from_json(): deserializes every element in order,
propagating the first parse error. -/
def from_json : List TransactionJson → Except String (List Transaction)
  | [] => .ok []
  | j :: rest =>
      match Transaction.fromDatestrDict j with
      | .error e => .error e
      | .ok t =>
          match from_json rest with
          | .error e => .error e
          | .ok ts => .ok (t :: ts)

end Transactions

/-! ## Concrete fixtures (the spec's example transactions) -/

/-- T1 of the spec's scenarios: the 2020-03-19 pizza withdrawal, carrying
full metadata. -/
def fixT1 : Transaction :=
  { account := "checking", amount := ⟨-15, 4, by decide, by decide⟩,
    balance := ⟨1349, 20, by decide, by decide⟩,
    bank := "bank1", date := ⟨2020, 3, 19⟩, desc := "PIZZA PLANET",
    name := some ("Pizza Planet"), note := some ("Got some pizza"),
    tags := ["food", "pizza"] }

/-- T2 of the spec's scenarios: the 2020-04-13 transfer deposit with no
metadata. -/
def fixT2 : Transaction :=
  { account := "savings", amount := ⟨411, 100, by decide, by decide⟩,
    balance := ⟨98233, 100, by decide, by decide⟩,
    bank := "bank1", date := ⟨2020, 4, 13⟩, desc := "TRANSFER" }

/-- T1 without any metadata (used by the merge scenarios). -/
def fixT1bare : Transaction :=
  { fixT1 with name := none, note := none, tags := [] }

/-- A transaction whose name is the empty string (legal: names() keeps it
while is_named() rejects it). -/
def fixTEmptyName : Transaction :=
  { fixT2 with name := some ("") }

/-- A transaction dated in year 42: a perfectly valid datetime.date whose
strftime rendering the program cannot parse back. -/
def fixT42 : Transaction :=
  { fixT2 with date := ⟨42, 1, 2⟩ }

/-! ## Claim C10: a balance criterion is accepted and applies no
constraint -/

/-- Helper: the filter loop is List.filter of the pointwise decision when
no element errors. -/
theorem filterLoop_eq_filter (keep : Transaction → Except String Bool)
    (p : Transaction → Bool) (l : List Transaction)
    (h : ∀ t ∈ l, keep t = .ok (p t)) :
    filterLoop keep l = .ok (l.filter p) := by
  induction l with
  | nil => rfl
  | cons t rest ih =>
      have ht := h t (List.mem_cons_self t rest)
      have hr := ih (fun x hx => h x (List.mem_cons_of_mem t hx))
      by_cases hp : p t = true
      · simp only [filterLoop, ht, hp, hr, List.filter_cons_of_pos hp]
      · have hp' : p t = false := by
          cases hpt : p t
          · rfl
          · exact absurd hpt hp
        rw [List.filter_cons_of_neg (by simp [hp'])]
        simp only [filterLoop, ht, hp', hr]

/-- Helper: with a single balance keyword argument the per-transaction
decision is always to keep (no branch of the filter body reads it). -/
theorem keepT_balance (v : CritVal) (negate : Bool) (mrd : PyDate)
    (t : Transaction) :
    keepT [(("balance"), v)] negate mrd t = .ok true := by
  simp [keepT, chk, lookupKw, List.find?]

/-- C10: filter(balance=v) passes the ALLOWED_KEYS check but no criterion
branch consults it, so for a collection of two or more transactions every
transaction is returned, in the original order. -/
theorem claim10 (v : CritVal) (l : List Transaction) (h2 : 2 ≤ l.length) :
    Transactions.filter [(("balance"), v)] l = .ok l := by
  have hfind : ([(("balance"), v)].find?
      (fun p => !(ALLOWED_KEYS.contains p.1))) = none := by
    simp [List.find?, ALLOWED_KEYS]
  have hlt : ¬ l.length < 2 := by omega
  have hloop := filterLoop_eq_filter
    (keepT [(("balance"), v)]
      (match lookupKw [(("balance"), v)] ("negate") with
        | some w => w.truthy
        | none => false)
      (Transactions.maxDate l))
    (fun _ => true) l (fun t _ => keepT_balance v _ _ t)
  simp only [Transactions.filter, hfind, if_neg hlt, hloop,
    List.filter_true]

/-- C10 witness at a concrete two-element collection and value. -/
theorem claim10_witness :
    2 ≤ ([fixT1, fixT2] : List Transaction).length ∧
      Transactions.filter [(("balance"), .vInt 3)] [fixT1, fixT2] =
        .ok [fixT1, fixT2] :=
  ⟨by decide, claim10 (.vInt 3) [fixT1, fixT2] (by decide)⟩

/-! ## Counterexamples to the claims that fail on the code -/

/-- C1 counterexample: on a one-element collection filter returns the whole
collection for the criterion and for its negation (the size < 2 shortcut
precedes all predicate evaluation), so the transaction appears in both
results and the two results are not disjoint. -/
theorem claim1_counterexample :
    Transactions.filter [(("bank"), .vStr ("x"))] [fixT2] = .ok [fixT2] ∧
      Transactions.filter
        [(("bank"), .vStr ("x")), (("negate"), .vBool true)] [fixT2] =
          .ok [fixT2] ∧
      fixT2 ∈ [fixT2] := by
  refine ⟨by decide, by decide, ?_⟩
  exact List.mem_singleton.mpr rfl

/-- C2 counterexample: grouping the spec's own two-transaction scenario by
date-weekly produces a first bucket starting 2020-03-19, a Thursday
(weekday 3), not a Sunday (weekday 6): weekly intervals start on the
weekday of the first transaction, not on a Sunday. -/
theorem claim2_counterexample :
    Transactions.group ("date-weekly") 100 false 1 [fixT1, fixT2] =
      .ok [(.kDates ⟨2020, 3, 19⟩ ⟨2020, 3, 26⟩, [fixT1]),
           (.kDates ⟨2020, 4, 9⟩ ⟨2020, 4, 16⟩, [fixT2])] ∧
      pyWeekday ⟨2020, 3, 19⟩ = 3 ∧ pyWeekday ⟨2020, 3, 19⟩ ≠ 6 := by
  refine ⟨by decide, by decide, by decide⟩

/-- C3 counterexample: a collection containing an identity-duplicate pair
is collapsed by merge(C, C) to a single entry, while sort(C) keeps both, so
merge(C, C) differs from sort(C). -/
theorem claim3_counterexample :
    Transactions.merge [[fixT2, fixT2], [fixT2, fixT2]] = [fixT2] ∧
      Transactions.sort [fixT2, fixT2] = [fixT2, fixT2] ∧
      ([fixT2] : List Transaction) ≠ [fixT2, fixT2] := by
  refine ⟨by decide, by decide, by decide⟩

/-- C4 counterexample: a transaction whose name is the empty string is
placed both in the empty-string name bucket (names() keeps it) and in the
None bucket (is_named() rejects it), so the bucket counts sum to 2 for a
one-element collection. -/
theorem claim4_counterexample :
    Transactions.group ("name") 100 true 1 [fixTEmptyName] =
      .ok [(.kStr (""), [fixTEmptyName]), (.kNone, [fixTEmptyName])] ∧
      ((([(.kStr (""), [fixTEmptyName]), (.kNone, [fixTEmptyName])] :
          List (GroupKey × List Transaction)).map
        (fun kv => kv.2.length)).sum = 2) ∧
      ([fixTEmptyName] : List Transaction).length = 1 := by
  refine ⟨by decide, by decide, by decide⟩

/-- C7 counterexample: group with the unsupported mode 'bogus' on a
nonempty collection does not fail; it silently returns the empty mapping
(every branch of the dispatcher is skipped). -/
theorem claim7_counterexample :
    Transactions.group ("bogus") 100 false 1 [fixT1] = .ok [] ∧
      ([fixT1] : List Transaction) ≠ [] := by
  refine ⟨by decide, by decide⟩

/-! ## Claim C5: degenerate statistics inputs -/

/-- C5: on the empty collection count is 0, every positional statistic of
amount and balance (max/min/mean/median/stdev, signed and absolute) is
None and both totals are 0.0; on a one-element collection the stdev of
amount and of balance is 0.0; the frequency stdev is 0.0 whenever date
grouping yields exactly one bucket; and none of these degenerate inputs
raises: the frequency statistics return None (not an error) on the empty
collection. -/
theorem claim5 :
    (Transactions.count [] = 0) ∧
    (∀ b, Transactions.max_amount [] b = none ∧
      Transactions.max_balance [] b = none ∧
      Transactions.min_amount [] b = none ∧
      Transactions.min_balance [] b = none ∧
      Transactions.mean_amount [] b = none ∧
      Transactions.mean_balance [] b = none ∧
      Transactions.median_amount [] b = none ∧
      Transactions.median_balance [] b = none ∧
      Transactions.stdev_amount [] b = none ∧
      Transactions.stdev_balance [] b = none) ∧
    (∀ b, Transactions.total_amount [] b = 0 ∧
      Transactions.total_balance [] b = 0) ∧
    (∀ t b, Transactions.stdev_amount [t] b = some 0 ∧
      Transactions.stdev_balance [t] b = some 0) ∧
    (∀ l scale g, scale ∈ Transactions.freqScales →
      Transactions.group (("date-") ++ scale) 100 true 1 l = .ok g →
      g.length = 1 →
      Transactions.stdev_freq l scale = .ok (some 0)) ∧
    (∀ scale, Transactions.mean_freq [] scale = .ok none ∧
      Transactions.median_freq [] scale = .ok none) ∧
    (∀ scale, scale ∈ Transactions.freqScales →
      Transactions.stdev_freq [] scale = .ok none) := by
  refine ⟨rfl, fun b => ⟨rfl, rfl, rfl, rfl, rfl, rfl, rfl, rfl, rfl, rfl⟩,
    fun b => ⟨rfl, rfl⟩, fun t b => ⟨rfl, rfl⟩, ?_, fun scale => ⟨rfl, rfl⟩,
    ?_⟩
  · intro l scale g hmem hg hlen
    have hcont : Transactions.freqScales.contains scale = true :=
      List.elem_eq_true_of_mem hmem
    simp only [Transactions.stdev_freq, hcont, Bool.not_true,
      Bool.false_eq_true, if_false, hg, hlen]
    rfl
  · intro scale hmem
    have hcont : Transactions.freqScales.contains scale = true :=
      List.elem_eq_true_of_mem hmem
    have hg : Transactions.group (("date-") ++ scale) 100 true 1 [] =
        .ok [] := by
      simp [Transactions.group]
    simp only [Transactions.stdev_freq, hcont, Bool.not_true,
      Bool.false_eq_true, if_false, hg]
    rfl

/-- C5 witness at concrete degenerate inputs. -/
theorem claim5_witness :
    Transactions.stdev_amount [fixT1] false = some 0 ∧
      Transactions.stdev_freq [fixT1] ("daily") = .ok (some 0) ∧
      Transactions.stdev_freq [] ("daily") = .ok none := by
  have h := claim5
  refine ⟨(h.2.2.2.1 fixT1 false).1, ?_, h.2.2.2.2.2.2 ("daily") (by decide)⟩
  exact h.2.2.2.2.1 [fixT1] ("daily")
    [(.kDates ⟨2020, 3, 19⟩ ⟨2020, 3, 20⟩, [fixT1])]
    (by decide) (by decide) (by decide)

/-! ## Claim C8: duplicate metadata resolution in merge -/

/-- C8: when an incoming transaction ct duplicates an accumulator entry dc
(dataclass identity equality), merge updates the entry in place to
mergeMeta dc ct, and that update adopts the incoming name exactly when the
incoming name is present (non-empty) or the existing one is absent, never
blanking a present name with an empty incoming one; the same rule holds
independently for note and for tags. -/
theorem claim8 (dc ct : Transaction) (hid : dc.identEq ct = true) :
    Transactions.merge [[dc], [ct]] = [mergeMeta dc ct] ∧
    ((ct.isNamed = true ∨ dc.isNamed = false) →
      (mergeMeta dc ct).name = ct.name) ∧
    (ct.isNamed = false → dc.isNamed = true →
      (mergeMeta dc ct).name = dc.name) ∧
    ((ct.hasNote = true ∨ dc.hasNote = false) →
      (mergeMeta dc ct).note = ct.note) ∧
    (ct.hasNote = false → dc.hasNote = true →
      (mergeMeta dc ct).note = dc.note) ∧
    ((ct.isCategorized = true ∨ dc.isCategorized = false) →
      (mergeMeta dc ct).tags = ct.tags) ∧
    (ct.isCategorized = false → dc.isCategorized = true →
      (mergeMeta dc ct).tags = dc.tags) := by
  refine ⟨?_, ?_, ?_, ?_, ?_, ?_, ?_⟩
  · simp [Transactions.merge, mergeStep, hid, Transactions.sort,
      stableSort, insertLe, List.findIdx_cons]
  · rintro (h | h) <;> simp [mergeMeta, h]
  · intro h1 h2
    simp [mergeMeta, h1, h2]
  · rintro (h | h) <;> simp [mergeMeta, h]
  · intro h1 h2
    simp [mergeMeta, h1, h2]
  · rintro (h | h) <;> simp [mergeMeta, h]
  · intro h1 h2
    simp [mergeMeta, h1, h2]

/-- C8 witness: the spec's scenario of merging a bare T1 with a copy of T1
carrying a name; the name is adopted. -/
theorem claim8_witness :
    Transactions.merge [[fixT1bare], [fixT1]] =
      [mergeMeta fixT1bare fixT1] ∧
      (mergeMeta fixT1bare fixT1).name = fixT1.name := by
  have h := claim8 fixT1bare fixT1 (by decide)
  exact ⟨h.1, h.2.1 (Or.inl (by decide))⟩

/-! ## Claim C9: serialization round trip -/

/-- Digit characters are digits. -/
theorem dChar_isDigit (d : Nat) (h : d < 10) : (dChar d).isDigit = true := by
  interval_cases d <;> decide

/-- The code point of a digit character. -/
theorem dChar_toNat (d : Nat) (h : d < 10) : (dChar d).toNat = 48 + d := by
  interval_cases d <;> decide

/-- Digit characters are not the slash separator. -/
theorem dChar_ne_slash (d : Nat) (h : d < 10) : (dChar d == '/') = false := by
  interval_cases d <;> decide

/-- splitSlash splits off a slash-free leading group. -/
theorem splitSlash_append (A rest : List Char)
    (h : ∀ c ∈ A, (c == '/') = false) :
    splitSlash (A ++ '/' :: rest) = A :: splitSlash rest := by
  induction A with
  | nil => simp [splitSlash]
  | cons a as ih =>
      have ha : (a == '/') = false := h a (List.mem_cons_self a as)
      have ih' := ih (fun c hc => h c (List.mem_cons_of_mem a hc))
      simp only [List.cons_append, splitSlash, ha, Bool.false_eq_true,
        if_false]
      rw [show (as.append ('/' :: rest) : List Char) = as ++ '/' :: rest
        from rfl, ih']

/-- splitSlash of a slash-free list is that single group. -/
theorem splitSlash_noSlash (A : List Char)
    (h : ∀ c ∈ A, (c == '/') = false) : splitSlash A = [A] := by
  induction A with
  | nil => rfl
  | cons a as ih =>
      have ha : (a == '/') = false := h a (List.mem_cons_self a as)
      have ih' := ih (fun c hc => h c (List.mem_cons_of_mem a hc))
      simp only [splitSlash, ha, Bool.false_eq_true, if_false, ih']

/-- Parsing the four-digit rendering of n <= 9999 recovers n. -/
theorem parseNat_digits4 (n : Nat) (h : n ≤ 9999) :
    parseNatChars (digits4 n) = some n := by
  have h1 : n / 1000 % 10 < 10 := Nat.mod_lt _ (by norm_num)
  have h2 : n / 100 % 10 < 10 := Nat.mod_lt _ (by norm_num)
  have h3 : n / 10 % 10 < 10 := Nat.mod_lt _ (by norm_num)
  have h4 : n % 10 < 10 := Nat.mod_lt _ (by norm_num)
  simp only [parseNatChars, digits4, List.isEmpty_cons, List.all_cons,
    List.all_nil, dChar_isDigit _ h1, dChar_isDigit _ h2, dChar_isDigit _ h3,
    dChar_isDigit _ h4, List.foldl, dChar_toNat _ h1, dChar_toNat _ h2,
    dChar_toNat _ h3, dChar_toNat _ h4, Bool.and_self, Bool.not_true,
    Bool.false_or, Bool.false_eq_true, if_false, Option.some.injEq]
  omega

/-- Parsing the two-digit rendering of n <= 99 recovers n. -/
theorem parseNat_digits2 (n : Nat) (h : n ≤ 99) :
    parseNatChars (digits2 n) = some n := by
  have h3 : n / 10 % 10 < 10 := Nat.mod_lt _ (by norm_num)
  have h4 : n % 10 < 10 := Nat.mod_lt _ (by norm_num)
  simp only [parseNatChars, digits2, List.isEmpty_cons, List.all_cons,
    List.all_nil, dChar_isDigit _ h3, dChar_isDigit _ h4, List.foldl,
    dChar_toNat _ h3, dChar_toNat _ h4, Bool.and_self, Bool.not_true,
    Bool.false_or, Bool.false_eq_true, if_false, Option.some.injEq]
  omega

/-- No character of a four-digit rendering is a slash. -/
theorem digits4_noSlash (n : Nat) :
    ∀ c ∈ digits4 n, (c == '/') = false := by
  intro c hc
  simp only [digits4, List.mem_cons, List.not_mem_nil, or_false] at hc
  rcases hc with h | h | h | h <;> subst h <;>
    exact dChar_ne_slash _ (Nat.mod_lt _ (by norm_num))

/-- No character of a two-digit rendering is a slash. -/
theorem digits2_noSlash (n : Nat) :
    ∀ c ∈ digits2 n, (c == '/') = false := by
  intro c hc
  simp only [digits2, List.mem_cons, List.not_mem_nil, or_false] at hc
  rcases hc with h | h <;> subst h <;>
    exact dChar_ne_slash _ (Nat.mod_lt _ (by norm_num))

/-- A month never exceeds 31 days. -/
theorem daysInMonth_le31 (y m : Int) : daysInMonth y m ≤ 31 := by
  unfold daysInMonth
  split
  · split <;> omega
  · split <;> omega

/-- For a year of at least 1000 the unpadded rendering is the four-digit
one. -/
theorem digitsYear_eq_digits4 (n : Nat) (h : 1000 ≤ n) :
    digitsYear n = digits4 n := by
  unfold digitsYear
  rw [if_neg (by omega), if_neg (by omega), if_neg (by omega)]

/-- Parsing the strftime rendering of a valid date with a four-digit year
recovers the date. -/
theorem parseDate_dateToStr (d : PyDate) (h : validDate d = true)
    (hky : 1000 ≤ d.year) :
    parseDate (dateToStr d) = .ok d := by
  have hv := h
  simp only [validDate, Bool.and_eq_true, decide_eq_true_eq] at hv
  obtain ⟨⟨⟨⟨⟨hy1, hy2⟩, hm1⟩, hm2⟩, hd1⟩, hd2⟩ := hv
  have hy9 : d.year.toNat ≤ 9999 := by omega
  have hm99 : d.month.toNat ≤ 99 := by omega
  have hd99 : d.day.toNat ≤ 99 := by
    have := daysInMonth_le31 d.year d.month
    omega
  have hyd4 : digitsYear d.year.toNat = digits4 d.year.toNat :=
    digitsYear_eq_digits4 _ (by omega)
  have hsplit :
      splitSlash (digitsYear d.year.toNat ++
          '/' :: (digits2 d.month.toNat ++ '/' :: digits2 d.day.toNat)) =
      [digits4 d.year.toNat, digits2 d.month.toNat, digits2 d.day.toNat] := by
    rw [hyd4, splitSlash_append _ _ (digits4_noSlash _),
      splitSlash_append _ _ (digits2_noSlash _),
      splitSlash_noSlash _ (digits2_noSlash _)]
  have hcond : (((digits4 d.year.toNat).length == 4) &&
      decide ((digits2 d.month.toNat).length ≤ 2) &&
      decide ((digits2 d.day.toNat).length ≤ 2)) = true := rfl
  have hytn : ((d.year.toNat : Nat) : Int) = d.year := by omega
  have hmtn : ((d.month.toNat : Nat) : Int) = d.month := by omega
  have hdtn : ((d.day.toNat : Nat) : Int) = d.day := by omega
  simp only [parseDate, dateToStr, hsplit, hcond, parseNat_digits4 _ hy9,
    parseNat_digits2 _ hm99, parseNat_digits2 _ hd99, mkDate, hytn, hmtn,
    hdtn, h, if_true]

/-- C9 counterexample: the round trip fails on a valid date before year
1000. The transaction dated 42-01-02 carries a valid datetime.date, yet
strftime('%Y/%m/%d') renders it as 42/01/02 (the %Y year is not padded on
this platform) and strptime's %Y pattern, which requires exactly four
digits, rejects that string, so from_json(to_json(C)) raises ValueError
instead of returning C. -/
theorem claim9_counterexample :
    validDate (PyDate.mk 42 1 2) = true ∧
    dateToStr (PyDate.mk 42 1 2) = ("42/01/02") ∧
    Transactions.from_json (Transactions.to_json [fixT42]) =
      .error ("ValueError: time data does not match format") := by
  decide

/-- C9 (amended): deserializing the serialized form reproduces an equal
collection, from_json(to_json(C)) = C, for every collection of
transactions whose (valid) dates have year at least 1000; the serialized
form is the array of per-transaction records with the keys account,
amount, balance, bank, date, desc, name, note, tags and the date
formatted as %Y/%m/%d. For a valid date before year 1000 the round trip
instead raises ValueError, because strftime emits an unpadded year that
strptime's four-digit %Y pattern rejects. -/
theorem claim9_amended (l : List Transaction)
    (h : ∀ t ∈ l, validDate t.date = true ∧ 1000 ≤ t.date.year) :
    Transactions.from_json (Transactions.to_json l) = .ok l := by
  induction l with
  | nil => rfl
  | cons t rest ih =>
      have ht : parseDate (dateToStr t.date) = .ok t.date :=
        parseDate_dateToStr t.date (h t (List.mem_cons_self t rest)).1
          (h t (List.mem_cons_self t rest)).2
      have ihr := ih (fun x hx => h x (List.mem_cons_of_mem t hx))
      simp only [Transactions.to_json, List.map_cons] at ihr ⊢
      simp only [Transactions.from_json, Transaction.fromDatestrDict,
        Transaction.toDatestrDict, ht, ihr]

/-- C9 witness: the round trip at the two concrete fixtures, whose dates
lie in 2020. -/
theorem claim9_witness :
    Transactions.from_json (Transactions.to_json [fixT1, fixT2]) =
      .ok [fixT1, fixT2] :=
  claim9_amended [fixT1, fixT2] (by decide)

/-! ## Claim C3 (amended): merge(C, C) = sort(C) for duplicate-free C -/

/-- The dataclass equality is reflexive. -/
theorem identEq_refl (t : Transaction) : t.identEq t = true := by
  simp [Transaction.identEq]

/-- Merging an entry's metadata with itself changes nothing. -/
theorem mergeMeta_self (t : Transaction) : mergeMeta t t = t := by
  simp [mergeMeta]

/-- Setting an index of a list to the element already there changes
nothing. -/
theorem set_getD_self {α : Type} (l : List α) (i : Nat) (d : α) :
    l.set i (l.getD i d) = l := by
  induction l generalizing i with
  | nil => rfl
  | cons a as ih =>
      cases i with
      | zero => rfl
      | succ j =>
          have hstep : (a :: as).set (j + 1) ((a :: as).getD (j + 1) d) =
              a :: as.set j (as.getD j d) := rfl
          rw [hstep, ih j]

/-- In a list without identity duplicates, the first entry identity-equal
to a member x is x itself. -/
theorem getD_findIdx_identEq (C : List Transaction) (x : Transaction)
    (hnd : C.Pairwise (fun a b => a.identEq b = false)) (hx : x ∈ C) :
    C.getD (C.findIdx (fun d => d.identEq x)) x = x := by
  induction C with
  | nil => cases hx
  | cons c cs ih =>
      rw [List.pairwise_cons] at hnd
      by_cases hc : c.identEq x = true
      · have hcx : c = x := by
          rcases List.mem_cons.mp hx with h | h
          · exact h.symm
          · exact absurd hc (by simp [hnd.1 x h])
        subst hcx
        simp only [List.findIdx_cons, identEq_refl, cond_true]
        rfl
      · have hc' : c.identEq x = false := by
          cases h : c.identEq x
          · rfl
          · exact absurd h hc
        have hxcs : x ∈ cs := by
          rcases List.mem_cons.mp hx with h | h
          · exact absurd (h ▸ identEq_refl x) (by simp [h ▸ hc'])
          · exact h
        have hidx : List.findIdx (fun d => d.identEq x) (c :: cs) =
            List.findIdx (fun d => d.identEq x) cs + 1 := by
          simp [List.findIdx_cons, hc']
        rw [hidx]
        show cs.getD (List.findIdx (fun d => d.identEq x) cs) x = x
        exact ih hnd.2 hxcs

/-- Merging a member of a duplicate-free accumulator back into it changes
nothing. -/
theorem mergeStep_mem (C : List Transaction) (x : Transaction)
    (hnd : C.Pairwise (fun a b => a.identEq b = false)) (hx : x ∈ C) :
    mergeStep C x = C := by
  have hany : C.any (fun d => d.identEq x) = true :=
    List.any_eq_true.mpr ⟨x, hx, identEq_refl x⟩
  have hget := getD_findIdx_identEq C x hnd hx
  simp only [mergeStep, hany, if_true]
  have h2 : mergeMeta (C.getD (C.findIdx (fun d => d.identEq x)) x) x =
      C.getD (C.findIdx (fun d => d.identEq x)) x := by
    rw [hget, mergeMeta_self]
  rw [h2]
  exact set_getD_self C _ x

/-- First merge pass: folding a duplicate-free collection into an
accumulator sharing no identity with it appends it unchanged. -/
theorem foldl_mergeStep_append (C acc : List Transaction)
    (hnd : C.Pairwise (fun a b => a.identEq b = false))
    (hdisj : ∀ a ∈ acc, ∀ c ∈ C, a.identEq c = false) :
    C.foldl mergeStep acc = acc ++ C := by
  induction C generalizing acc with
  | nil => simp
  | cons c cs ih =>
      rw [List.pairwise_cons] at hnd
      have hany : acc.any (fun d => d.identEq c) = false := by
        rw [List.any_eq_false]
        intro a ha
        rw [hdisj a ha c (List.mem_cons_self c cs)]
        exact Bool.false_ne_true
      have hstep : mergeStep acc c = acc ++ [c] := by
        simp [mergeStep, hany]
      have hdisj' : ∀ a ∈ acc ++ [c], ∀ x ∈ cs, a.identEq x = false := by
        intro a ha x hx
        rcases List.mem_append.mp ha with h | h
        · exact hdisj a h x (List.mem_cons_of_mem c hx)
        · rw [List.mem_singleton.mp h]
          exact hnd.1 x hx
      rw [List.foldl_cons, hstep, ih (acc ++ [c]) hnd.2 hdisj',
        List.append_assoc]
      rfl

/-- Second merge pass: folding members of a duplicate-free accumulator back
into it changes nothing. -/
theorem foldl_mergeStep_self (C : List Transaction)
    (hnd : C.Pairwise (fun a b => a.identEq b = false)) :
    ∀ L : List Transaction, (∀ x ∈ L, x ∈ C) → L.foldl mergeStep C = C := by
  intro L
  induction L with
  | nil => intro _; rfl
  | cons x xs ih =>
      intro hsub
      rw [List.foldl_cons,
        mergeStep_mem C x hnd (hsub x (List.mem_cons_self x xs))]
      exact ih (fun y hy => hsub y (List.mem_cons_of_mem x hy))

/-- C3 (amended): for a collection C containing no two transactions that
are equal under the dataclass identity (date, bank, account, desc, amount,
balance), merging C with itself yields exactly the date-sorted C; when C
does contain identity duplicates, merge(C, C) collapses them while sort(C)
does not (see the counterexample). -/
theorem claim3_amended (C : List Transaction)
    (hnd : C.Pairwise (fun a b => a.identEq b = false)) :
    Transactions.merge [C, C] = Transactions.sort C := by
  unfold Transactions.merge
  rw [List.foldl_cons, List.foldl_cons, List.foldl_nil,
    foldl_mergeStep_append C [] hnd (by intro a ha; cases ha),
    List.nil_append, foldl_mergeStep_self C hnd C (fun x hx => hx)]

/-- C3 witness at a concrete duplicate-free two-element collection. -/
theorem claim3_witness :
    Transactions.merge [[fixT1, fixT2], [fixT1, fixT2]] =
      Transactions.sort [fixT1, fixT2] :=
  claim3_amended [fixT1, fixT2] (by decide)

/-! ## Generic facts about the stable sort and about bucket sums -/

/-- Inserting permutes to consing. -/
theorem insertLe_perm {α : Type} (le : α → α → Bool) (x : α) (l : List α) :
    (insertLe le x l).Perm (x :: l) := by
  induction l with
  | nil => exact List.Perm.refl _
  | cons y rest ih =>
      by_cases h : le y x = true
      · simp only [insertLe, h, if_true]
        exact ((ih.cons y).trans (List.Perm.swap x y rest))
      · have h' : le y x = false := by
          cases hh : le y x
          · rfl
          · exact absurd hh h
        simp only [insertLe, h', Bool.false_eq_true, if_false]
        exact List.Perm.refl _

/-- The insertion fold permutes to appending. -/
theorem foldl_insertLe_perm {α : Type} (le : α → α → Bool) :
    ∀ (l acc : List α),
      (l.foldl (fun acc x => insertLe le x acc) acc).Perm (acc ++ l) := by
  intro l
  induction l with
  | nil => intro acc; simp
  | cons x xs ih =>
      intro acc
      rw [List.foldl_cons]
      have h1 := ih (insertLe le x acc)
      have h2 : (insertLe le x acc ++ xs).Perm ((x :: acc) ++ xs) :=
        (insertLe_perm le x acc).append_right xs
      have h3 : ((x :: acc) ++ xs).Perm (acc ++ x :: xs) := by
        rw [List.cons_append]
        exact List.perm_middle.symm
      exact (h1.trans h2).trans h3

/-- The stable sort is a permutation of its input. -/
theorem stableSort_perm {α : Type} (le : α → α → Bool) (l : List α) :
    (stableSort le l).Perm l := by
  have h := foldl_insertLe_perm le l []
  simpa [stableSort] using h

/-- sort permutes the collection. -/
theorem sort_perm (l : List Transaction) :
    (Transactions.sort l).Perm l :=
  stableSort_perm _ l

/-- Pointwise sums of mapped additions split. -/
theorem sum_map_add {α : Type} (l : List α) (f g : α → Nat) :
    (l.map (fun k => f k + g k)).sum = (l.map f).sum + (l.map g).sum := by
  induction l with
  | nil => rfl
  | cons a as ih => simp [ih]; omega

/-- A missing key contributes nothing to the indicator sum.  The boolean
equality eqb is abstract so that the lemma applies at whatever BEq
instance the grouping code uses. -/
theorem sum_map_indicator_zero {β : Type} (eqb : β → β → Bool)
    (heqb : ∀ x y, eqb x y = true ↔ x = y) (ks : List β) (b : β)
    (h : b ∉ ks) :
    (ks.map (fun k => if eqb b k then 1 else 0)).sum = 0 := by
  induction ks with
  | nil => rfl
  | cons k kr ih =>
      have hbk : eqb b k = false := by
        cases hh : eqb b k
        · rfl
        · exact absurd ((heqb b k).mp hh ▸ List.mem_cons_self k kr) h
      simp only [List.map_cons, List.sum_cons, hbk, Bool.false_eq_true,
        if_false, Nat.zero_add]
      exact ih (fun hm => h (List.mem_cons_of_mem k hm))

/-- A key present once in a duplicate-free list contributes exactly one to
the indicator sum. -/
theorem sum_map_indicator_one {β : Type} (eqb : β → β → Bool)
    (heqb : ∀ x y, eqb x y = true ↔ x = y) (ks : List β) (b : β)
    (hnd : ks.Nodup) (h : b ∈ ks) :
    (ks.map (fun k => if eqb b k then 1 else 0)).sum = 1 := by
  induction ks with
  | nil => cases h
  | cons k kr ih =>
      rw [List.nodup_cons] at hnd
      by_cases hbk : b = k
      · subst hbk
        have hself : eqb b b = true := (heqb b b).mpr rfl
        simp only [List.map_cons, List.sum_cons, hself, if_true]
        rw [sum_map_indicator_zero eqb heqb kr b hnd.1]
      · have hbk' : eqb b k = false := by
          cases hh : eqb b k
          · rfl
          · exact absurd ((heqb b k).mp hh) hbk
        have hbm : b ∈ kr := by
          rcases List.mem_cons.mp h with hh | hh
          · exact absurd hh hbk
          · exact hh
        simp only [List.map_cons, List.sum_cons, hbk', Bool.false_eq_true,
          if_false, Nat.zero_add]
        exact ih hnd.2 hbm

/-- Bucket coverage: when every element's key lies in a duplicate-free key
list, the per-key match counts sum to the length. -/
theorem sum_counts {α β : Type} (eqb : β → β → Bool)
    (heqb : ∀ x y, eqb x y = true ↔ x = y) (l : List α) (key : α → β)
    (ks : List β) (hnd : ks.Nodup) (hcov : ∀ x ∈ l, key x ∈ ks) :
    (ks.map (fun k => l.countP (fun x => eqb (key x) k))).sum =
      l.length := by
  induction l with
  | nil => simp
  | cons x xs ih =>
      have hx : key x ∈ ks := hcov x (List.mem_cons_self x xs)
      have ihx := ih (fun y hy => hcov y (List.mem_cons_of_mem x hy))
      have hcnt : ∀ k, (x :: xs).countP (fun y => eqb (key y) k) =
          xs.countP (fun y => eqb (key y) k) +
            (if eqb (key x) k then 1 else 0) := by
        intro k
        rw [List.countP_cons]
      calc (ks.map (fun k => (x :: xs).countP (fun y => eqb (key y) k))).sum
          = (ks.map (fun k => xs.countP (fun y => eqb (key y) k) +
              (if eqb (key x) k then 1 else 0))).sum := by
            congr 1
            exact List.map_congr_left (fun k _ => hcnt k)
        _ = (ks.map (fun k => xs.countP (fun y => eqb (key y) k))).sum +
              (ks.map (fun k => if eqb (key x) k then 1 else 0)).sum :=
            sum_map_add ks _ _
        _ = xs.length + 1 := by
            rw [ihx, sum_map_indicator_one eqb heqb ks (key x) hnd hx]
        _ = (x :: xs).length := by simp

/-! ## Claim C4 (amended): categorical bucket coverage -/

/-- The desc branch of group, explicitly. -/
theorem group_desc (l : List Transaction) (dr : ℚ) (ie : Bool) (i : Nat)
    (hl : ¬ l.length < 1) :
    Transactions.group ("desc") dr ie i l =
      .ok ((Transactions.descs l).map (fun d =>
        (.kStr d, (Transactions.sort l).filter (fun t => t.desc == d)))) := by
  simp [Transactions.group, hl, strStarts]

/-- The name branch of group with empty groups included, explicitly. -/
theorem group_name (l : List Transaction) (dr : ℚ) (i : Nat)
    (hl : ¬ l.length < 1) :
    Transactions.group ("name") dr true i l =
      .ok (((Transactions.names l).map (fun n =>
          (GroupKey.kStr n,
            (Transactions.sort l).filter (fun t => t.name == some n)))) ++
        [(.kNone, (Transactions.sort l).filter (fun t => !t.isNamed))]) := by
  simp [Transactions.group, hl, strStarts]

/-- The tags branch of group, explicitly. -/
theorem group_tags (l : List Transaction) (dr : ℚ) (ie : Bool) (i : Nat)
    (hl : ¬ l.length < 1) :
    Transactions.group ("tags") dr ie i l =
      .ok (tagFold ie (Transactions.sort l)) := by
  simp [Transactions.group, hl, strStarts]

/-- The bank-account branch of group, explicitly. -/
theorem group_bankAccount (l : List Transaction) (dr : ℚ) (ie : Bool)
    (i : Nat) (hl : ¬ l.length < 1) :
    Transactions.group ("bank-account") dr ie i l =
      .ok ((Transactions.banks l).flatMap (fun bank =>
        (Transactions.accounts l (some bank)).map (fun account =>
          (.kPair bank account,
            (Transactions.sort l).filter
              (fun t => t.bank == bank && t.account == account))))) := by
  simp [Transactions.group, hl]

/-- assocAppend leaves the key list unchanged when the key is present and
appends it otherwise. -/
theorem assocAppend_keys (acc : List (GroupKey × List Transaction))
    (k : GroupKey) (t : Transaction) :
    (assocAppend acc k t).map Prod.fst =
      if acc.any (fun p => p.1 == k) then acc.map Prod.fst
      else acc.map Prod.fst ++ [k] := by
  unfold assocAppend
  by_cases h : acc.any (fun p => p.1 == k) = true
  · simp only [h, if_true, List.map_map]
    refine List.map_congr_left (fun p _ => ?_)
    by_cases hp : p.1 = k
    · simp [hp]
    · simp [hp]
  · have h' : acc.any (fun p => p.1 == k) = false := by
      cases hh : acc.any (fun p => p.1 == k)
      · rfl
      · exact absurd hh h
    simp [h']

/-- assocAppend grows the total bucket size by exactly one when the
accumulator's keys are duplicate-free. -/
theorem assocAppend_sum (k : GroupKey) (t : Transaction) :
    ∀ acc : List (GroupKey × List Transaction),
      (acc.map Prod.fst).Nodup →
      ((assocAppend acc k t).map (fun p => p.2.length)).sum =
        (acc.map (fun p => p.2.length)).sum + 1 := by
  intro acc
  induction acc with
  | nil => intro _; simp [assocAppend]
  | cons p ps ih =>
      intro hnd
      rw [List.map_cons, List.nodup_cons] at hnd
      by_cases hpk : (p.1 == k) = true
      · have hknotin : ∀ q ∈ ps, (q.1 == k) = false := by
          intro q hq
          have : p.1 = k := by simpa using hpk
          subst this
          have : q.1 ≠ p.1 := by
            intro he
            exact hnd.1 (he ▸ List.mem_map_of_mem Prod.fst hq)
          simpa using this
        have hmap : ps.map (fun q =>
            if q.1 == k then (q.1, q.2 ++ [t]) else q) = ps := by
          have hpt : ∀ q ∈ ps, (if q.1 == k then (q.1, q.2 ++ [t]) else q) =
              q := by
            intro q hq
            simp [hknotin q hq]
          have h2 : ps.map (fun q =>
              if q.1 == k then (q.1, q.2 ++ [t]) else q) =
              ps.map (fun q => q) := List.map_congr_left hpt
          rw [h2]
          exact List.map_id' ps
        have hany : ((p :: ps).any (fun q => q.1 == k)) = true := by
          simp [hpk]
        simp only [assocAppend, hany, if_true, List.map_cons, hpk,
          List.sum_cons, hmap, List.length_append, List.length_cons,
          List.length_nil]
        omega
      · have hpk' : (p.1 == k) = false := by
          cases hh : (p.1 == k)
          · rfl
          · exact absurd hh hpk
        by_cases hps : ps.any (fun q => q.1 == k) = true
        · have hany : ((p :: ps).any (fun q => q.1 == k)) = true := by
            simp [hps]
          have hrec := ih hnd.2
          rw [assocAppend, if_pos hps] at hrec
          simp only [assocAppend, hany, if_true, List.map_cons, hpk',
            Bool.false_eq_true, if_false, List.sum_cons, hrec]
          omega
        · have hps' : ps.any (fun q => q.1 == k) = false := by
            cases hh : ps.any (fun q => q.1 == k)
            · rfl
            · exact absurd hh hps
          have hany : ((p :: ps).any (fun q => q.1 == k)) = false := by
            simp [hpk', hps']
          simp only [assocAppend, hany, Bool.false_eq_true, if_false,
            List.map_append, List.sum_append, List.map_cons, List.sum_cons,
            List.map_nil, List.sum_nil, List.length_cons, List.length_nil]
          omega

/-- assocAppend preserves duplicate-freeness of the key list. -/
theorem assocAppend_nodup (k : GroupKey) (t : Transaction)
    (acc : List (GroupKey × List Transaction))
    (hnd : (acc.map Prod.fst).Nodup) :
    ((assocAppend acc k t).map Prod.fst).Nodup := by
  rw [assocAppend_keys]
  by_cases h : acc.any (fun p => p.1 == k) = true
  · simpa [h] using hnd
  · have h' : acc.any (fun p => p.1 == k) = false := by
      cases hh : acc.any (fun p => p.1 == k)
      · rfl
      · exact absurd hh h
    have hnotin : k ∉ acc.map Prod.fst := by
      intro hk
      rcases List.mem_map.mp hk with ⟨p, hp, he⟩
      have := List.any_eq_false.mp h' p hp
      exact this (by simp [he])
    simp only [h', Bool.false_eq_true, if_false]
    rw [List.nodup_append]
    exact ⟨hnd, List.nodup_singleton k,
      fun a ha hb => hnotin (by simpa [List.mem_singleton.mp hb] using ha)⟩

/-- Folding transactions into buckets through assocAppend adds one to the
total bucket size per transaction. -/
theorem foldl_assocAppend_sum (keyf : Transaction → GroupKey)
    (items : List Transaction) :
    ∀ acc : List (GroupKey × List Transaction), (acc.map Prod.fst).Nodup →
      ((items.foldl (fun acc i => assocAppend acc (keyf i) i) acc).map
          (fun p => p.2.length)).sum =
        (acc.map (fun p => p.2.length)).sum + items.length ∧
      ((items.foldl (fun acc i => assocAppend acc (keyf i) i) acc).map
          Prod.fst).Nodup := by
  induction items with
  | nil => intro acc hnd; exact ⟨by simp, hnd⟩
  | cons x xs ih =>
      intro acc hnd
      rw [List.foldl_cons]
      have hstep := assocAppend_sum (keyf x) x acc hnd
      have hnd' := assocAppend_nodup (keyf x) x acc hnd
      obtain ⟨hsum, hnodup⟩ := ih (assocAppend acc (keyf x) x) hnd'
      refine ⟨?_, hnodup⟩
      rw [hsum, hstep, List.length_cons]
      omega

/-- The tags fold with empty groups included is the assocAppend fold over
the sorted-tags (or None) key. -/
theorem tagFold_true_eq (items : List Transaction) :
    tagFold true items =
      items.foldl (fun acc i =>
        assocAppend acc
          (if i.tags.isEmpty then GroupKey.kNone
            else .kTags (stableSort strLeB i.tags)) i) [] := by
  unfold tagFold
  congr 1
  funext acc i
  by_cases h : i.tags.isEmpty <;> simp [h]

/-- Pointwise-equal functions give equal flat maps. -/
theorem flatMap_congr {α β : Type} (l : List α) (f g : α → List β)
    (h : ∀ a ∈ l, f a = g a) : l.flatMap f = l.flatMap g := by
  induction l with
  | nil => rfl
  | cons a as ih =>
      simp only [List.flatMap_cons, h a (List.mem_cons_self a as),
        ih (fun x hx => h x (List.mem_cons_of_mem a hx))]

/-- A transaction's account is listed among the accounts of its own bank. -/
theorem mem_accounts_self (l : List Transaction) (t : Transaction)
    (ht : t ∈ l) :
    t.account ∈ Transactions.accounts l (some t.bank) := by
  unfold Transactions.accounts
  by_cases hb : (t.bank == "") = true
  · simp only [hb, if_true]
    exact List.mem_dedup.mpr (List.mem_map_of_mem _ ht)
  · have hb' : (t.bank == "") = false := by
      cases hh : (t.bank == "")
      · rfl
      · exact absurd hh hb
    simp only [hb', Bool.false_eq_true, if_false]
    refine List.mem_dedup.mpr (List.mem_map_of_mem _ ?_)
    exact List.mem_filter.mpr ⟨ht, by simp⟩

/-- C4 (amended): for the categorical grouping modes desc, tags and
bank-account, and for name restricted to collections without empty-string
names, grouping with empty groups included places every transaction in
exactly one bucket: the bucket sizes sum to the collection size.  (A
transaction with an empty-string name is double-counted by the name mode;
see the counterexample.) -/
theorem claim4_amended (l : List Transaction) (dr : ℚ) (i : Nat) :
    (∀ res, Transactions.group ("desc") dr true i l = .ok res →
      (res.map (fun kv => kv.2.length)).sum = l.length) ∧
    (∀ res, Transactions.group ("tags") dr true i l = .ok res →
      (res.map (fun kv => kv.2.length)).sum = l.length) ∧
    (∀ res, Transactions.group ("bank-account") dr true i l = .ok res →
      (res.map (fun kv => kv.2.length)).sum = l.length) ∧
    (∀ res, (∀ t ∈ l, t.name ≠ some ("")) →
      Transactions.group ("name") dr true i l = .ok res →
      (res.map (fun kv => kv.2.length)).sum = l.length) := by
  by_cases hl : l.length < 1
  · have hnil : l = [] := List.eq_nil_of_length_eq_zero (by omega)
    subst hnil
    refine ⟨?_, ?_, ?_, ?_⟩ <;>
      first
        | (intro res h
           simp only [Transactions.group, List.length_nil,
             Nat.zero_lt_one, if_true] at h
           cases h
           rfl)
        | (intro res _ h
           simp only [Transactions.group, List.length_nil,
             Nat.zero_lt_one, if_true] at h
           cases h
           rfl)
  · have hlen : (Transactions.sort l).length = l.length :=
      (sort_perm l).length_eq
    have hmem : ∀ t, t ∈ Transactions.sort l ↔ t ∈ l :=
      fun t => (sort_perm l).mem_iff
    refine ⟨?_, ?_, ?_, ?_⟩
    · intro res h
      rw [group_desc l dr true i hl] at h
      cases h
      have := sum_counts (fun (a b : String) => a == b)
        (fun x y => beq_iff_eq) (Transactions.sort l) (fun t => t.desc)
        (Transactions.descs l) (List.nodup_dedup _)
        (fun t ht => List.mem_dedup.mpr
          (List.mem_map_of_mem _ ((hmem t).mp ht)))
      rw [List.map_map]
      rw [show ((fun kv : GroupKey × List Transaction => kv.2.length) ∘
          fun d => (GroupKey.kStr d,
            (Transactions.sort l).filter (fun t => t.desc == d))) =
          fun d => ((Transactions.sort l).filter
            (fun t => t.desc == d)).length from rfl]
      rw [← hlen, ← this]
      congr 1
      exact List.map_congr_left (fun d _ =>
        (List.countP_eq_length_filter _ _).symm)
    · intro res h
      rw [group_tags l dr true i hl] at h
      cases h
      rw [tagFold_true_eq]
      have := foldl_assocAppend_sum
        (fun i => if i.tags.isEmpty then GroupKey.kNone
          else .kTags (stableSort strLeB i.tags))
        (Transactions.sort l) [] (by simp)
      rw [this.1, ← hlen]
      simp
    · intro res h
      rw [group_bankAccount l dr true i hl] at h
      cases h
      have hks : ((Transactions.banks l).flatMap (fun b =>
          (Transactions.accounts l (some b)).map
            (fun a => (b, a)))).Nodup := by
        rw [List.nodup_flatMap]
        refine ⟨fun b _ => List.Nodup.map ?_ (List.nodup_dedup _), ?_⟩
        · intro a1 a2 he
          cases he
          rfl
        · refine List.Pairwise.imp ?_ (List.nodup_dedup _)
          intro b1 b2 hne p hp1 hp2
          rcases List.mem_map.mp hp1 with ⟨a1, _, he1⟩
          rcases List.mem_map.mp hp2 with ⟨a2, _, he2⟩
          exact hne (by rw [← he1] at he2; cases he2; rfl)
      have hcov : ∀ t ∈ Transactions.sort l, ((t.bank, t.account) :
          String × String) ∈ (Transactions.banks l).flatMap (fun b =>
            (Transactions.accounts l (some b)).map (fun a => (b, a))) := by
        intro t ht
        have htl : t ∈ l := (hmem t).mp ht
        refine List.mem_flatMap.mpr ⟨t.bank,
          List.mem_dedup.mpr (List.mem_map_of_mem _ htl),
          List.mem_map_of_mem _ (mem_accounts_self l t htl)⟩
      have heqbPair : ∀ p q : String × String,
          (p.1 == q.1 && p.2 == q.2) = true ↔ p = q := by
        intro p q
        rw [Bool.and_eq_true]
        constructor
        · intro hh
          exact Prod.ext (eq_of_beq hh.1) (eq_of_beq hh.2)
        · intro hh
          subst hh
          exact ⟨beq_self_eq_true _, beq_self_eq_true _⟩
      have hsum := sum_counts
        (fun (p q : String × String) => p.1 == q.1 && p.2 == q.2) heqbPair
        (Transactions.sort l)
        (fun t => ((t.bank, t.account) : String × String))
        ((Transactions.banks l).flatMap (fun b =>
          (Transactions.accounts l (some b)).map (fun a => (b, a))))
        hks hcov
      rw [← hlen, ← hsum, List.map_flatMap, List.map_flatMap]
      congr 1
      refine flatMap_congr _ _ _ (fun b _ => ?_)
      rw [List.map_map, List.map_map]
      refine List.map_congr_left (fun a _ => ?_)
      simp only [Function.comp_apply]
      exact (List.countP_eq_length_filter _ _).symm
    · intro res hne h
      rw [group_name l dr i hl] at h
      cases h
      have hks : (((Transactions.names l).map some) ++
          ([none] : List (Option String))).Nodup := by
        rw [List.nodup_append]
        refine ⟨List.Nodup.map (fun a b he => by cases he; rfl)
          (List.nodup_dedup _), List.nodup_singleton _, ?_⟩
        intro x hx hx'
        rcases List.mem_map.mp hx with ⟨s, _, he⟩
        rw [List.mem_singleton.mp hx'] at he
        cases he
      have hcov : ∀ t ∈ Transactions.sort l,
          t.name ∈ ((Transactions.names l).map some ++
            ([none] : List (Option String))) := by
        intro t ht
        cases hn : t.name with
        | none => exact List.mem_append_right _ (List.mem_singleton.mpr rfl)
        | some s =>
            refine List.mem_append_left _ (List.mem_map_of_mem some ?_)
            exact List.mem_dedup.mpr (List.mem_filterMap.mpr
              ⟨t, (hmem t).mp ht, hn⟩)
      have hsum := sum_counts (fun (x y : Option String) => x == y)
        (fun x y => beq_iff_eq) (Transactions.sort l) (fun t => t.name)
        ((Transactions.names l).map some ++ ([none] : List (Option String)))
        hks hcov
      rw [← hlen, ← hsum, List.map_append, List.map_append]
      congr 1
      congr 1
      · rw [List.map_map, List.map_map]
        refine List.map_congr_left (fun n _ => ?_)
        simp only [Function.comp_apply]
        exact (List.countP_eq_length_filter _ _).symm
      · simp only [List.map_cons, List.map_nil]
        congr 1
        rw [← List.countP_eq_length_filter]
        refine List.countP_congr (fun t ht => ?_)
        cases hn : t.name with
        | none => simp [Transaction.isNamed, hn]
        | some s =>
            have hs : s ≠ "" := by
              intro he
              exact hne t ((hmem t).mp ht) (by rw [hn, he])
            simp [Transaction.isNamed, hn, hs]

/-- C4 witness: a concrete two-element collection grouped by desc. -/
theorem claim4_witness :
    (([(.kStr ("PIZZA PLANET"), [fixT1]), (.kStr ("TRANSFER"), [fixT2])] :
        List (GroupKey × List Transaction)).map
      (fun kv => kv.2.length)).sum = ([fixT1, fixT2] :
        List Transaction).length :=
  (claim4_amended [fixT1, fixT2] 100 1).1 _ (by decide)

/-! ## Claim C7 (amended): configuration errors -/

/-- C7 (amended): an unknown filter keyword always raises before anything
else; an unsupported frequency-statistic scale raises (for the mean and
median variants only once the collection is nonempty, since the empty
check precedes the scale check; for the stdev variant always); an
unsupported group mode starting with date- raises only through the freq
dictionary KeyError, while any other unsupported group mode silently
returns the empty mapping instead of failing. -/
theorem claim7_amended :
    (∀ l k v, ALLOWED_KEYS.contains k = false →
      Transactions.filter [(k, v)] l =
        .error (("unknown filter key ") ++ k)) ∧
    (∀ l scale, Transactions.freqScales.contains scale = false →
      1 ≤ l.length →
      Transactions.mean_freq l scale =
          .error ("please specify an appropriate time scale") ∧
        Transactions.median_freq l scale =
          .error ("please specify an appropriate time scale")) ∧
    (∀ l scale, Transactions.freqScales.contains scale = false →
      Transactions.stdev_freq l scale =
        .error ("please specify an appropriate time scale")) ∧
    (∀ (l : List Transaction) (dr : ℚ) (ie : Bool) (iv : Nat) mode,
      strStarts mode ("date-") = true → parseDMode mode = none →
      1 ≤ l.length →
      Transactions.group mode dr ie iv l =
        .error (("KeyError: ") ++ mode)) ∧
    (∀ (l : List Transaction) (dr : ℚ) (ie : Bool) (iv : Nat) mode,
      (mode == ("bank-account")) = false → (mode == ("amount")) = false →
      (mode == ("balance")) = false → (mode == ("desc")) = false →
      (mode == ("name")) = false → (mode == ("tags")) = false →
      strStarts mode ("date-") = false →
      Transactions.group mode dr ie iv l = .ok []) := by
  refine ⟨?_, ?_, ?_, ?_, ?_⟩
  · intro l k v h
    have hfind : List.find? (fun p : String × CritVal =>
        !(ALLOWED_KEYS.contains p.1)) [(k, v)] = some (k, v) := by
      simp only [List.find?, h, Bool.not_false]
    unfold Transactions.filter
    rw [hfind]
  · intro l scale h h1
    have hnl : ¬ l.length < 1 := by omega
    have h' : (!(Transactions.freqScales.contains scale)) = true := by
      rw [h]
      rfl
    constructor
    · unfold Transactions.mean_freq
      rw [if_neg hnl, if_pos h']
    · unfold Transactions.median_freq
      rw [if_neg hnl, if_pos h']
  · intro l scale h
    have h' : (!(Transactions.freqScales.contains scale)) = true := by
      rw [h]
      rfl
    unfold Transactions.stdev_freq
    rw [if_pos h']
  · intro l dr ie iv mode hstart hparse h1
    have hnl : ¬ l.length < 1 := by omega
    have hb : (mode == ("bank-account")) = false := by
      cases hmb : mode == ("bank-account")
      · rfl
      · exact absurd (eq_of_beq hmb ▸ hstart) (by decide)
    simp [Transactions.group, hnl, hb, hstart, hparse]
  · intro l dr ie iv mode h1 h2 h3 h4 h5 h6 h7
    by_cases hnl : l.length < 1
    · simp [Transactions.group, hnl]
    · simp [Transactions.group, hnl, h1, h2, h3, h4, h5, h6, h7]

/-- C7 witness at concrete inputs for each error path and for the silent
unsupported group mode. -/
theorem claim7_witness :
    Transactions.filter [(("bogus"), .vInt 1)] [fixT1] =
      .error (("unknown filter key ") ++ ("bogus")) ∧
    Transactions.mean_freq [fixT1] ("hourly") =
      .error ("please specify an appropriate time scale") ∧
    Transactions.stdev_freq [fixT1] ("hourly") =
      .error ("please specify an appropriate time scale") ∧
    Transactions.group ("date-hourly") 100 false 1 [fixT1] =
      .error (("KeyError: ") ++ ("date-hourly")) ∧
    Transactions.group ("nonsense") 100 false 1 [fixT1] = .ok [] := by
  refine ⟨claim7_amended.1 [fixT1] ("bogus") (.vInt 1) (by decide),
    (claim7_amended.2.1 [fixT1] ("hourly") (by decide) (by decide)).1,
    claim7_amended.2.2.1 [fixT1] ("hourly") (by decide),
    claim7_amended.2.2.2.1 [fixT1] 100 false 1 ("date-hourly") (by decide)
      (by decide) (by decide),
    claim7_amended.2.2.2.2 [fixT1] 100 false 1 ("nonsense") (by decide)
      (by decide) (by decide) (by decide) (by decide) (by decide)
      (by decide)⟩

/-! ## Claim C6: every statistic is a 2-decimal (4-decimal for
frequencies) value -/

/-- q is an exact multiple of 0.01 (a value rounded to 2 decimals). -/
def isCentQ (q : ℚ) : Prop :=
  ∃ k : Int, q = (k : ℚ) / 100

/-- q is an exact multiple of 0.0001 (a value rounded to 4 decimals). -/
def isTenThousandthQ (q : ℚ) : Prop :=
  ∃ k : Int, q = (k : ℚ) / 10000

/-- Rounding to 2 decimals produces a multiple of 0.01. -/
theorem pyRound2_cent (q : ℚ) : isCentQ (pyRound q 2) :=
  ⟨roundHalfEven (q * (10 : ℚ) ^ 2), by norm_num [pyRound]⟩

/-- Rounding to 4 decimals produces a multiple of 0.0001. -/
theorem pyRound4_tenThousandth (q : ℚ) : isTenThousandthQ (pyRound q 4) :=
  ⟨roundHalfEven (q * (10 : ℚ) ^ 4), by norm_num [pyRound]⟩

/-- The rounded standard deviation to 2 decimals is a multiple of 0.01. -/
theorem stdevRound2_cent (l : List ℚ) : isCentQ (stdevRound l 2) :=
  ⟨((roundSqrt ((10 : ℚ) ^ (2 * 2) *
      ((l.map (fun x => (x - meanQ l) ^ 2)).sum /
        ((l.length : ℚ) - 1))) : Nat) : Int), by norm_num [stdevRound]⟩

/-- The rounded standard deviation to 4 decimals is a multiple of 0.0001. -/
theorem stdevRound4_tenThousandth (l : List ℚ) :
    isTenThousandthQ (stdevRound l 4) :=
  ⟨((roundSqrt ((10 : ℚ) ^ (2 * 4) *
      ((l.map (fun x => (x - meanQ l) ^ 2)).sum /
        ((l.length : ℚ) - 1))) : Nat) : Int), by norm_num [stdevRound]⟩

/-- Zero is a multiple of 0.01. -/
theorem isCentQ_zero : isCentQ 0 :=
  ⟨0, by norm_num⟩

/-- Multiples of 0.01 are closed under absolute value. -/
theorem isCentQ_abs (q : ℚ) (h : isCentQ q) : isCentQ |q| := by
  obtain ⟨k, hk⟩ := h
  refine ⟨|k|, ?_⟩
  rw [hk, abs_div, Int.cast_abs]
  norm_num

/-- Every element of the amount column of a cent-valued collection is a
multiple of 0.01. -/
theorem amounts_cent (l : List Transaction) (b : Bool)
    (hc : ∀ t ∈ l, isCentQ t.amount ∧ isCentQ t.balance) :
    ∀ v ∈ Transactions.amounts l b, isCentQ v := by
  intro v hv
  rcases List.mem_map.mp hv with ⟨t, ht, he⟩
  cases b
  · exact he ▸ (hc t ht).1
  · exact he ▸ isCentQ_abs _ (hc t ht).1

/-- Every element of the balance column of a cent-valued collection is a
multiple of 0.01. -/
theorem balances_cent (l : List Transaction) (b : Bool)
    (hc : ∀ t ∈ l, isCentQ t.amount ∧ isCentQ t.balance) :
    ∀ v ∈ Transactions.balances l b, isCentQ v := by
  intro v hv
  rcases List.mem_map.mp hv with ⟨t, ht, he⟩
  cases b
  · exact he ▸ (hc t ht).2
  · exact he ▸ isCentQ_abs _ (hc t ht).2

/-- C6: for a nonempty collection whose stored amounts and balances honour
the 2-decimal invariant, every statistic of amount and balance (max, min,
mean, median, stdev, total, signed and absolute) is a multiple of 0.01,
and every frequency statistic is a multiple of 0.0001. -/
theorem claim6 (l : List Transaction) (h0 : l ≠ [])
    (hc : ∀ t ∈ l, isCentQ t.amount ∧ isCentQ t.balance) :
    (∀ b v, Transactions.max_amount l b = some v → isCentQ v) ∧
    (∀ b v, Transactions.max_balance l b = some v → isCentQ v) ∧
    (∀ b v, Transactions.min_amount l b = some v → isCentQ v) ∧
    (∀ b v, Transactions.min_balance l b = some v → isCentQ v) ∧
    (∀ b v, Transactions.mean_amount l b = some v → isCentQ v) ∧
    (∀ b v, Transactions.mean_balance l b = some v → isCentQ v) ∧
    (∀ b v, Transactions.median_amount l b = some v → isCentQ v) ∧
    (∀ b v, Transactions.median_balance l b = some v → isCentQ v) ∧
    (∀ b v, Transactions.stdev_amount l b = some v → isCentQ v) ∧
    (∀ b v, Transactions.stdev_balance l b = some v → isCentQ v) ∧
    (∀ b, isCentQ (Transactions.total_amount l b)) ∧
    (∀ b, isCentQ (Transactions.total_balance l b)) ∧
    (∀ scale v, Transactions.mean_freq l scale = .ok (some v) →
      isTenThousandthQ v) ∧
    (∀ scale v, Transactions.median_freq l scale = .ok (some v) →
      isTenThousandthQ v) ∧
    (∀ scale v, Transactions.stdev_freq l scale = .ok (some v) →
      isTenThousandthQ v) := by
  have hnl : ¬ l.length < 1 := by
    have := List.length_pos.mpr h0
    omega
  refine ⟨?_, ?_, ?_, ?_, ?_, ?_, ?_, ?_, ?_, ?_, ?_, ?_, ?_, ?_, ?_⟩
  · intro b v h
    rw [Transactions.max_amount, if_neg hnl] at h
    exact amounts_cent l b hc v (List.max?_mem max_choice h)
  · intro b v h
    rw [Transactions.max_balance, if_neg hnl] at h
    exact balances_cent l b hc v (List.max?_mem max_choice h)
  · intro b v h
    rw [Transactions.min_amount, if_neg hnl] at h
    exact amounts_cent l b hc v (List.min?_mem min_choice h)
  · intro b v h
    rw [Transactions.min_balance, if_neg hnl] at h
    exact balances_cent l b hc v (List.min?_mem min_choice h)
  · intro b v h
    rw [Transactions.mean_amount, if_neg hnl] at h
    cases h
    exact pyRound2_cent _
  · intro b v h
    rw [Transactions.mean_balance, if_neg hnl] at h
    cases h
    exact pyRound2_cent _
  · intro b v h
    rw [Transactions.median_amount, if_neg hnl] at h
    cases h
    exact pyRound2_cent _
  · intro b v h
    rw [Transactions.median_balance, if_neg hnl] at h
    cases h
    exact pyRound2_cent _
  · intro b v h
    rw [Transactions.stdev_amount, if_neg hnl] at h
    by_cases h1 : (l.length == 1) = true
    · rw [if_pos h1] at h
      cases h
      exact isCentQ_zero
    · rw [if_neg (by simp_all)] at h
      cases h
      exact stdevRound2_cent _
  · intro b v h
    rw [Transactions.stdev_balance, if_neg hnl] at h
    by_cases h1 : (l.length == 1) = true
    · rw [if_pos h1] at h
      cases h
      exact isCentQ_zero
    · rw [if_neg (by simp_all)] at h
      cases h
      exact stdevRound2_cent _
  · intro b
    rw [Transactions.total_amount, if_neg hnl]
    exact pyRound2_cent _
  · intro b
    rw [Transactions.total_balance, if_neg hnl]
    exact pyRound2_cent _
  · intro scale v h
    rw [Transactions.mean_freq, if_neg hnl] at h
    by_cases hs : (!(Transactions.freqScales.contains scale)) = true
    · rw [if_pos hs] at h
      cases h
    · rw [if_neg hs] at h
      cases hg : Transactions.group (("date-") ++ scale) 100 true 1 l with
      | error e =>
          rw [hg] at h
          cases h
      | ok g =>
          rw [hg] at h
          cases h
          exact pyRound4_tenThousandth _
  · intro scale v h
    rw [Transactions.median_freq, if_neg hnl] at h
    by_cases hs : (!(Transactions.freqScales.contains scale)) = true
    · rw [if_pos hs] at h
      cases h
    · rw [if_neg hs] at h
      cases hg : Transactions.group (("date-") ++ scale) 100 true 1 l with
      | error e =>
          rw [hg] at h
          cases h
      | ok g =>
          rw [hg] at h
          cases h
          exact pyRound4_tenThousandth _
  · intro scale v h
    rw [Transactions.stdev_freq] at h
    by_cases hs : (!(Transactions.freqScales.contains scale)) = true
    · rw [if_pos hs] at h
      cases h
    · rw [if_neg hs] at h
      cases hg : Transactions.group (("date-") ++ scale) 100 true 1 l with
      | error e =>
          rw [hg] at h
          cases h
      | ok g =>
          rw [hg] at h
          replace h :
              (if g.length < 1 then (.ok none : Except String (Option ℚ))
               else if g.length == 1 then .ok (some 0)
               else .ok (some (stdevRound
                 (g.map (fun kv => ((kv.2.length : ℚ)))) 4))) =
                .ok (some v) := h
          by_cases hg1 : g.length < 1
          · rw [if_pos hg1] at h
            cases h
          · rw [if_neg hg1] at h
            by_cases hg2 : (g.length == 1) = true
            · rw [if_pos hg2] at h
              cases h
              exact ⟨0, by norm_num⟩
            · rw [if_neg (by simp_all)] at h
              cases h
              exact stdevRound4_tenThousandth _

/-- C6 witness at a concrete one-element collection honouring the
invariant. -/
theorem claim6_witness :
    Transactions.max_amount [fixT1] false = some fixT1.amount ∧
      isCentQ fixT1.amount ∧
      isCentQ (Transactions.total_amount [fixT1] false) := by
  have hc : ∀ t ∈ [fixT1], isCentQ t.amount ∧ isCentQ t.balance := by
    intro t ht
    rw [List.mem_singleton.mp ht]
    exact ⟨⟨-375, by norm_num [fixT1, Rat.mk'_eq_divInt, Rat.divInt_eq_div]⟩,
      ⟨6745, by norm_num [fixT1, Rat.mk'_eq_divInt, Rat.divInt_eq_div]⟩⟩
  have h := claim6 [fixT1] (by decide) hc
  have hmax : Transactions.max_amount [fixT1] false = some fixT1.amount :=
    rfl
  exact ⟨hmax, h.1 false fixT1.amount hmax, h.2.2.2.2.2.2.2.2.2.2.1 false⟩

/-! ## Claim C2 (amended): date interval generation -/

/-- Months have at least one day. -/
theorem one_le_daysInMonth (y m : Int) : 1 ≤ daysInMonth y m := by
  unfold daysInMonth
  split
  · split <;> omega
  · split <;> omega

/-- Stepping months from a day-1 date stays on day 1. -/
theorem stepBy_monthly_day (iv : Nat) (d : PyDate) (h : d.day = 1) :
    (stepBy .monthly iv d).day = 1 := by
  simp only [stepBy, addMonths, h]
  have := one_le_daysInMonth
    ((d.year * 12 + (d.month - 1) + (iv : Int)).ediv 12)
    ((d.year * 12 + (d.month - 1) + (iv : Int)).emod 12 + 1)
  omega

/-- Stepping years from a Jan-1 date stays on Jan 1. -/
theorem stepBy_yearly_keeps (iv : Nat) (d : PyDate) (h1 : d.month = 1)
    (h2 : d.day = 1) :
    (stepBy .yearly iv d).month = 1 ∧ (stepBy .yearly iv d).day = 1 := by
  simp only [stepBy, addYears, h1, h2]
  have := one_le_daysInMonth (d.year + (iv : Int)) 1
  refine ⟨by simp, by omega⟩

/-- Iterating the monthly step from a day-1 date stays on day 1. -/
theorem iterate_monthly_day (iv : Nat) (d : PyDate) (h : d.day = 1) :
    ∀ i, ((stepBy .monthly iv)^[i] d).day = 1 := by
  intro i
  induction i generalizing d with
  | zero => exact h
  | succ j ih =>
      rw [Function.iterate_succ_apply]
      exact ih _ (stepBy_monthly_day iv d h)

/-- Iterating the yearly step from a Jan-1 date stays on Jan 1. -/
theorem iterate_yearly_keeps (iv : Nat) (d : PyDate) (h1 : d.month = 1)
    (h2 : d.day = 1) :
    ∀ i, ((stepBy .yearly iv)^[i] d).month = 1 ∧
      ((stepBy .yearly iv)^[i] d).day = 1 := by
  intro i
  induction i generalizing d with
  | zero => exact ⟨h1, h2⟩
  | succ j ih =>
      rw [Function.iterate_succ_apply]
      exact ih _ (stepBy_yearly_keeps iv d h1 h2).1
        (stepBy_yearly_keeps iv d h1 h2).2

/-- The occurrence generator emits a nonempty list only starting at its
current date. -/
theorem dateStepsAux_head (step : PyDate → PyDate) (u : PyDate)
    (f : Nat) (c y : PyDate) (ys : List PyDate)
    (h : dateStepsAux step u f c = y :: ys) : y = c := by
  cases f with
  | zero => cases h
  | succ f' =>
      unfold dateStepsAux at h
      by_cases hc : c.leB u = true
      · rw [if_pos hc] at h
        exact (List.cons.injEq .. ▸ h).1.symm
      · rw [if_neg hc] at h
        cases h

/-- Every consecutive pair of the occurrence list is one step apart, its
left endpoint is an iterate of the step from the start, and it does not
pass the until bound. -/
theorem dateStepsAux_chain (step : PyDate → PyDate) (u : PyDate) :
    ∀ (f : Nat) (c a b : PyDate),
      (a, b) ∈ pairsOf (dateStepsAux step u f c) →
      b = step a ∧ (∃ i, a = step^[i] c) ∧ a.leB u = true := by
  intro f
  induction f with
  | zero => intro c a b h; cases h
  | succ f' ih =>
      intro c a b h
      unfold dateStepsAux at h
      by_cases hc : c.leB u = true
      · rw [if_pos hc] at h
        cases hrest : dateStepsAux step u f' (step c) with
        | nil =>
            rw [hrest] at h
            cases h
        | cons y ys =>
            rw [hrest] at h
            have hy : y = step c := dateStepsAux_head step u f' _ y ys hrest
            rw [show pairsOf (c :: y :: ys) = (c, y) :: pairsOf (y :: ys)
              from rfl] at h
            rcases List.mem_cons.mp h with hh | hh
            · have ha : a = c := congrArg Prod.fst hh
              have hb : b = y := congrArg Prod.snd hh
              subst ha
              subst hb
              exact ⟨hy, ⟨0, rfl⟩, hc⟩
            · rw [← hrest] at hh
              obtain ⟨h1, ⟨i, h2⟩, h3⟩ := ih (step c) a b hh
              exact ⟨h1, ⟨i + 1, by
                rw [Function.iterate_succ_apply]
                exact h2⟩, h3⟩
      · rw [if_neg hc] at h
        cases h

/-- Every bucket key produced by the consume-once loop is one of the
labelled range keys. -/
theorem consumeFold_keys (ie : Bool) :
    ∀ (ranges : List (GroupKey × (Transaction → Bool)))
      (items : List Transaction) (k : GroupKey) (ts : List Transaction),
      (k, ts) ∈ consumeFold ie ranges items → ∃ p ∈ ranges, k = p.1 := by
  intro ranges
  induction ranges with
  | nil => intro items k ts h; cases h
  | cons r rest ih =>
      intro items k ts h
      unfold consumeFold at h
      by_cases hskip : (!ie && (items.filter r.2).isEmpty) = true
      · rw [if_pos hskip] at h
        obtain ⟨p, hp, he⟩ := ih items k ts h
        exact ⟨p, List.mem_cons_of_mem r hp, he⟩
      · rw [if_neg hskip] at h
        rcases List.mem_cons.mp h with hh | hh
        · exact ⟨r, List.mem_cons_self r rest, congrArg Prod.fst hh⟩
        · obtain ⟨p, hp, he⟩ := ih _ k ts hh
          exact ⟨p, List.mem_cons_of_mem r hp, he⟩

/-- A parsed date mode is one of the four date strings. -/
theorem parseDMode_cases (mode : String) (m : DMode)
    (hm : parseDMode mode = some m) :
    (mode = ("date-daily") ∧ m = .daily) ∨
    (mode = ("date-monthly") ∧ m = .monthly) ∨
    (mode = ("date-weekly") ∧ m = .weekly) ∨
    (mode = ("date-yearly") ∧ m = .yearly) := by
  unfold parseDMode at hm
  by_cases h1 : (mode == ("date-daily")) = true
  · rw [if_pos h1] at hm
    cases hm
    exact Or.inl ⟨eq_of_beq h1, rfl⟩
  · rw [if_neg h1] at hm
    by_cases h2 : (mode == ("date-monthly")) = true
    · rw [if_pos h2] at hm
      cases hm
      exact Or.inr (Or.inl ⟨eq_of_beq h2, rfl⟩)
    · rw [if_neg h2] at hm
      by_cases h3 : (mode == ("date-weekly")) = true
      · rw [if_pos h3] at hm
        cases hm
        exact Or.inr (Or.inr (Or.inl ⟨eq_of_beq h3, rfl⟩))
      · rw [if_neg h3] at hm
        by_cases h4 : (mode == ("date-yearly")) = true
        · rw [if_pos h4] at hm
          cases hm
          exact Or.inr (Or.inr (Or.inr ⟨eq_of_beq h4, rfl⟩))
        · rw [if_neg h4] at hm
          cases hm

/-- The date branch of group, explicitly. -/
theorem group_date (l : List Transaction) (dr : ℚ) (ie : Bool) (iv : Nat)
    (mode : String) (m : DMode) (hm : parseDMode mode = some m)
    (hl : ¬ l.length < 1) :
    Transactions.group mode dr ie iv l =
      .ok (consumeFold ie
        ((pairsOf (dateSteps m iv
            (alignStart m (Transactions.sort l).headI.date)
            (addUnit m (Transactions.sort l).getLastI.date))).map
          (fun r => ((GroupKey.kDates r.1 r.2),
            fun t => r.1.leB t.date && t.date.ltB r.2)))
        (Transactions.sort l)) := by
  rcases parseDMode_cases mode m hm with ⟨he, hd⟩ | ⟨he, hd⟩ | ⟨he, hd⟩ |
    ⟨he, hd⟩ <;> subst he <;> subst hd <;>
    simp [Transactions.group, hl, strStarts, parseDMode]

/-- C2 (amended): every date bucket key (lo, hi) of a date-mode grouping
satisfies: lo is an iterate of the stride step from the first (sorted)
transaction's interval start, hi is exactly one stride step past lo, lo
does not pass one calendar unit beyond the last transaction's date, and
monthly bucket starts fall on day 1 and yearly bucket starts on Jan 1.
(Weekly buckets start on the weekday of the first transaction, not on a
Sunday — see the counterexample — and a stride of k makes daily buckets k
days wide.) -/
theorem claim2_amended (l : List Transaction) (dr : ℚ) (ie : Bool)
    (iv : Nat) (mode : String) (m : DMode)
    (res : List (GroupKey × List Transaction))
    (hm : parseDMode mode = some m) (hl : ¬ l.length < 1)
    (hres : Transactions.group mode dr ie iv l = .ok res) :
    ∀ lo hi ts, ((GroupKey.kDates lo hi), ts) ∈ res →
      (∃ i, lo = (stepBy m iv)^[i]
        (alignStart m (Transactions.sort l).headI.date)) ∧
      hi = stepBy m iv lo ∧
      lo.leB (addUnit m (Transactions.sort l).getLastI.date) = true ∧
      (m = .monthly → lo.day = 1) ∧
      (m = .yearly → lo.month = 1 ∧ lo.day = 1) := by
  rw [group_date l dr ie iv mode m hm hl] at hres
  cases hres
  intro lo hi ts hmem
  obtain ⟨p, hp, he⟩ := consumeFold_keys ie _ _ _ _ hmem
  rcases List.mem_map.mp hp with ⟨r, hr, hrp⟩
  rw [← hrp] at he
  have hlo : lo = r.1 := ((GroupKey.kDates.injEq .. ).mp he).1
  have hhi : hi = r.2 := ((GroupKey.kDates.injEq .. ).mp he).2
  have hchain := dateStepsAux_chain (stepBy m iv)
    (addUnit m (Transactions.sort l).getLastI.date) _ _ r.1 r.2
    (by rw [show (r.1, r.2) = r from rfl]; exact hr)
  obtain ⟨hstep, ⟨i, hit⟩, hle⟩ := hchain
  subst hlo
  subst hhi
  refine ⟨⟨i, hit⟩, hstep, hle, ?_, ?_⟩
  · intro hmm
    subst hmm
    rw [hit]
    exact iterate_monthly_day iv _ rfl i
  · intro hmm
    subst hmm
    rw [hit]
    exact ⟨(iterate_yearly_keeps iv _ rfl rfl i).1,
      (iterate_yearly_keeps iv _ rfl rfl i).2⟩

/-- C2 witness: the spec's monthly scenario; its first bucket key is
checked against the amended description. -/
theorem claim2_witness :
    Transactions.group ("date-monthly") 100 false 1 [fixT1, fixT2] =
      .ok [(.kDates ⟨2020, 3, 1⟩ ⟨2020, 4, 1⟩, [fixT1]),
           (.kDates ⟨2020, 4, 1⟩ ⟨2020, 5, 1⟩, [fixT2])] ∧
    ((∃ i, (⟨2020, 3, 1⟩ : PyDate) = (stepBy .monthly 1)^[i]
        (alignStart .monthly
          (Transactions.sort [fixT1, fixT2]).headI.date)) ∧
      (⟨2020, 4, 1⟩ : PyDate) = stepBy .monthly 1 ⟨2020, 3, 1⟩ ∧
      PyDate.leB ⟨2020, 3, 1⟩ (addUnit .monthly
        (Transactions.sort [fixT1, fixT2]).getLastI.date) = true ∧
      (DMode.monthly = .monthly → (⟨2020, 3, 1⟩ : PyDate).day = 1) ∧
      (DMode.monthly = .yearly → (⟨2020, 3, 1⟩ : PyDate).month = 1 ∧
        (⟨2020, 3, 1⟩ : PyDate).day = 1)) := by
  have hg : Transactions.group ("date-monthly") 100 false 1
      [fixT1, fixT2] =
      .ok [(.kDates ⟨2020, 3, 1⟩ ⟨2020, 4, 1⟩, [fixT1]),
           (.kDates ⟨2020, 4, 1⟩ ⟨2020, 5, 1⟩, [fixT2])] := by decide
  refine ⟨hg, ?_⟩
  exact claim2_amended [fixT1, fixT2] 100 false 1 ("date-monthly")
    .monthly _ rfl (by decide) hg ⟨2020, 3, 1⟩ ⟨2020, 4, 1⟩ [fixT1]
    (by decide)

/-! ## Claim C1 (amended): negation complement for single criteria -/

/-- The recognized deposit/withdrawal string tokens of the amount
criterion. -/
def recognizedAmountStr (s : String) : Bool :=
  (lowerStr s == ("+") || lowerStr s == ("d") ||
    lowerStr s == ("deposit")) ||
  (lowerStr s == ("-") || lowerStr s == ("w") ||
    lowerStr s == ("withdrawal"))

/-- The single-criterion shapes for which the negated filter is the exact
complement of the positive filter: every non-predicate shape except the
inert balance key, unrecognized amount strings (which constrain nothing)
and multi-component date strings (whose negation drops the complement
short). -/
def goodCrit (k : String) (v : CritVal) : Bool :=
  ((k == ("bank") || k == ("account") || k == ("name") ||
      k == ("desc") || k == ("note")) &&
    (match v with | .vStr _ => true | _ => false)) ||
  (k == ("tags") &&
    (match v with | .vStr _ => true | .vList _ => true | _ => false)) ||
  (k == ("amount") &&
    (match v with
      | .vStr s => recognizedAmountStr s
      | .vNumPair _ _ => true
      | _ => false)) ||
  (k == ("date") &&
    (match v with
      | .vInt _ => true
      | .vBool _ => true
      | .vDate _ => true
      | .vStrPair _ _ => true
      | .vStr s => (splitSlash s.data).length == 1
      | _ => false))

/-- A negate-indexed check is complementary when negation either fails
identically or flips the boolean decision. -/
def ComplementaryAt (f : Bool → Except String Bool) : Prop :=
  (∃ e, f false = .error e ∧ f true = .error e) ∨
  (∃ b, f false = .ok b ∧ f true = .ok (!b))

/-- Parsing preserves the number of groups. -/
theorem parseInts_length :
    ∀ (gs : List (List Char)) (vs : List Int),
      parseInts gs = .ok vs → vs.length = gs.length := by
  intro gs
  induction gs with
  | nil =>
      intro vs h
      cases h
      rfl
  | cons c rest ih =>
      intro vs h
      unfold parseInts at h
      cases hp : pyInt c with
      | error e =>
          rw [hp] at h
          cases h
      | ok v =>
          rw [hp] at h
          cases hr : parseInts rest with
          | error e =>
              rw [hr] at h
              cases h
          | ok vs' =>
              rw [hr] at h
              cases h
              simp [ih vs' hr]

/-- The bank check is complementary at every shape. -/
theorem checkBank_compl (v : CritVal) (t : Transaction) :
    ComplementaryAt (fun neg => checkBank v neg t) := by
  cases v <;>
    first
      | exact Or.inr ⟨_, rfl, rfl⟩
      | exact Or.inl ⟨_, rfl, rfl⟩

/-- The account check is complementary at every shape. -/
theorem checkAccount_compl (v : CritVal) (t : Transaction) :
    ComplementaryAt (fun neg => checkAccount v neg t) := by
  cases v <;>
    first
      | exact Or.inr ⟨_, rfl, rfl⟩
      | exact Or.inl ⟨_, rfl, rfl⟩

/-- The tags check is complementary at every shape. -/
theorem checkTags_compl (v : CritVal) (t : Transaction) :
    ComplementaryAt (fun neg => checkTags v neg t) := by
  cases v <;>
    first
      | exact Or.inr ⟨_, rfl, rfl⟩
      | exact Or.inl ⟨_, rfl, rfl⟩

/-- The name check is complementary at every shape. -/
theorem checkName_compl (v : CritVal) (t : Transaction) :
    ComplementaryAt (fun neg => checkName v neg t) := by
  cases v <;>
    first
      | exact Or.inr ⟨_, rfl, rfl⟩
      | exact Or.inl ⟨_, rfl, rfl⟩

/-- The desc check is complementary at every shape. -/
theorem checkDesc_compl (v : CritVal) (t : Transaction) :
    ComplementaryAt (fun neg => checkDesc v neg t) := by
  cases v <;>
    first
      | exact Or.inr ⟨_, rfl, rfl⟩
      | exact Or.inl ⟨_, rfl, rfl⟩

/-- The note check is complementary at every shape. -/
theorem checkNote_compl (v : CritVal) (t : Transaction) :
    ComplementaryAt (fun neg => checkNote v neg t) := by
  cases v <;>
    first
      | exact Or.inr ⟨_, rfl, rfl⟩
      | exact Or.inl ⟨_, rfl, rfl⟩

/-- The amount check is complementary at the recognized string tokens and
at numeric ranges. -/
theorem checkAmount_compl (v : CritVal) (t : Transaction)
    (hv : (match v with
      | CritVal.vStr s => recognizedAmountStr s
      | CritVal.vNumPair _ _ => true
      | _ => false) = true) :
    ComplementaryAt (fun neg => checkAmount v neg t) := by
  cases v with
  | vStr s =>
      have hrec : recognizedAmountStr s = true := hv
      unfold recognizedAmountStr at hrec
      rcases Bool.or_eq_true .. |>.mp hrec with hla | hlb
      · rcases Bool.or_eq_true .. |>.mp hla with hl | h3
        · rcases Bool.or_eq_true .. |>.mp hl with h1 | h2
          · have he : lowerStr s = ("+") := eq_of_beq h1
            exact Or.inr ⟨decide (0 < t.amount),
              by simp [checkAmount, he], by simp [checkAmount, he]⟩
          · have he : lowerStr s = ("d") := eq_of_beq h2
            exact Or.inr ⟨decide (0 < t.amount),
              by simp [checkAmount, he], by simp [checkAmount, he]⟩
        · have he : lowerStr s = ("deposit") := eq_of_beq h3
          exact Or.inr ⟨decide (0 < t.amount),
            by simp [checkAmount, he], by simp [checkAmount, he]⟩
      · rcases Bool.or_eq_true .. |>.mp hlb with hl | h3
        · rcases Bool.or_eq_true .. |>.mp hl with h1 | h2
          · have he : lowerStr s = ("-") := eq_of_beq h1
            exact Or.inr ⟨decide (t.amount < 0),
              by simp [checkAmount, he], by simp [checkAmount, he]⟩
          · have he : lowerStr s = ("w") := eq_of_beq h2
            exact Or.inr ⟨decide (t.amount < 0),
              by simp [checkAmount, he], by simp [checkAmount, he]⟩
        · have he : lowerStr s = ("withdrawal") := eq_of_beq h3
          exact Or.inr ⟨decide (t.amount < 0),
            by simp [checkAmount, he], by simp [checkAmount, he]⟩
  | vNumPair a b => exact Or.inr ⟨_, rfl, rfl⟩
  | vList l => cases hv
  | vStrPair a b => cases hv
  | vInt n => cases hv
  | vDate d => cases hv
  | vBool b => cases hv

/-- The date check is complementary at ints, bools, exact dates, range
tuples and single-component date strings. -/
theorem checkDate_compl (v : CritVal) (mrd : PyDate) (t : Transaction)
    (hv : (match v with
      | CritVal.vInt _ => true
      | CritVal.vBool _ => true
      | CritVal.vDate _ => true
      | CritVal.vStrPair _ _ => true
      | CritVal.vStr s => (splitSlash s.data).length == 1
      | _ => false) = true) :
    ComplementaryAt (fun neg => checkDate v neg mrd t) := by
  cases v with
  | vInt n => exact Or.inr ⟨_, rfl, rfl⟩
  | vBool b => exact Or.inr ⟨_, rfl, rfl⟩
  | vDate d => exact Or.inr ⟨_, rfl, rfl⟩
  | vList l => cases hv
  | vNumPair a b => cases hv
  | vStr s =>
      have hv' : ((splitSlash s.data).length == 1) = true := hv
      cases hp : parseIntsSlash s with
      | error e =>
          exact Or.inl ⟨e, by simp only [checkDate, hp],
            by simp only [checkDate, hp]⟩
      | ok sd =>
          have hlen : sd.length = 1 := by
            rw [parseInts_length _ _ hp]
            exact eq_of_beq hv'
          refine Or.inr ⟨t.date.year == sd.getD 0 0, ?_, ?_⟩
          · simp only [checkDate, hp]
            congr 1
            simp [dateStrPos, hlen]
          · simp only [checkDate, hp]
            congr 1
            simp [dateStrNeg, hlen]
  | vStrPair a b =>
      cases hpa : parseIntsSlash a with
      | error e =>
          exact Or.inl ⟨e, by simp only [checkDate, hpa],
            by simp only [checkDate, hpa]⟩
      | ok sd1 =>
          cases hpb : parseIntsSlash b with
          | error e =>
              exact Or.inl ⟨e, by simp only [checkDate, hpa, hpb],
                by simp only [checkDate, hpa, hpb]⟩
          | ok sd2 =>
              cases hpu : padUpper sd2 with
              | error e =>
                  exact Or.inl ⟨e,
                    by simp only [checkDate, hpa, hpb, hpu],
                    by simp only [checkDate, hpa, hpb, hpu]⟩
              | ok sd2p =>
                  cases hm1 : mkDate ((padLower sd1).getD 0 0)
                      ((padLower sd1).getD 1 0) ((padLower sd1).getD 2 0)
                      with
                  | error e =>
                      exact Or.inl
                        ⟨e, by simp only [checkDate, hpa, hpb, hpu, hm1],
                          by simp only [checkDate, hpa, hpb, hpu, hm1]⟩
                  | ok lo =>
                      cases hm2 : mkDate (sd2p.getD 0 0) (sd2p.getD 1 0)
                          (sd2p.getD 2 0) with
                      | error e =>
                          exact Or.inl ⟨e,
                            by simp only [checkDate, hpa, hpb, hpu, hm1,
                              hm2],
                            by simp only [checkDate, hpa, hpb, hpu, hm1,
                              hm2]⟩
                      | ok hi =>
                          refine Or.inr ⟨lo.leB t.date && t.date.leB hi,
                            ?_, ?_⟩ <;>
                            (simp only [checkDate, hpa, hpb, hpu, hm1,
                              hm2]
                             rfl)

/-- A single present criterion with a trivially-true continuation is the
criterion's own check. -/
theorem chk_some_trivial (g : CritVal → Except String Bool) (v : CritVal) :
    chk (some v) g (.ok true) = g v := by
  cases h : g v with
  | error e => simp [chk, h]
  | ok b => cases b <;> simp [chk, h]

/-- A successful filter pass evaluated every element's check without
error. -/
theorem filterLoop_ok_forall (keep : Transaction → Except String Bool) :
    ∀ (l A : List Transaction), filterLoop keep l = .ok A →
      ∀ t ∈ l, ∃ b, keep t = .ok b := by
  intro l
  induction l with
  | nil => intro A _ t ht; cases ht
  | cons x rest ih =>
      intro A h t ht
      cases hk : keep x with
      | error e =>
          exfalso
          unfold filterLoop at h
          rw [hk] at h
          cases h
      | ok b =>
          rcases List.mem_cons.mp ht with he | hm
          · exact ⟨b, he ▸ hk⟩
          · unfold filterLoop at h
            rw [hk] at h
            cases b
            · replace h : filterLoop keep rest = .ok A := h
              exact ih A h t hm
            · replace h : (match filterLoop keep rest with
                | .error e => (.error e : Except String (List Transaction))
                | .ok r => .ok (x :: r)) = .ok A := h
              cases hr : filterLoop keep rest with
              | error e =>
                  rw [hr] at h
                  cases h
              | ok r => exact ih r hr t hm

/-- Every kept element came from the input and passed its check. -/
theorem filterLoop_sound (keep : Transaction → Except String Bool) :
    ∀ (l A : List Transaction), filterLoop keep l = .ok A →
      ∀ t ∈ A, t ∈ l ∧ keep t = .ok true := by
  intro l
  induction l with
  | nil =>
      intro A h t ht
      cases h
      cases ht
  | cons x rest ih =>
      intro A h t ht
      cases hk : keep x with
      | error e =>
          exfalso
          unfold filterLoop at h
          rw [hk] at h
          cases h
      | ok b =>
          unfold filterLoop at h
          rw [hk] at h
          cases b
          · replace h : filterLoop keep rest = .ok A := h
            obtain ⟨hm, hkeep⟩ := ih A h t ht
            exact ⟨List.mem_cons_of_mem x hm, hkeep⟩
          · replace h : (match filterLoop keep rest with
              | .error e => (.error e : Except String (List Transaction))
              | .ok r => .ok (x :: r)) = .ok A := h
            cases hr : filterLoop keep rest with
            | error e =>
                rw [hr] at h
                cases h
            | ok r =>
                rw [hr] at h
                cases h
                rcases List.mem_cons.mp ht with he | hm
                · exact ⟨he ▸ List.mem_cons_self x rest, he ▸ hk⟩
                · obtain ⟨hm', hkeep⟩ := ih r hr t hm
                  exact ⟨List.mem_cons_of_mem x hm', hkeep⟩

/-- Two filter passes whose checks are pointwise complementary split the
multiset of transactions: counts and lengths add up. -/
theorem filterLoop_count (keep0 keep1 : Transaction → Except String Bool) :
    ∀ (l A B : List Transaction),
      (∀ t ∈ l, ∃ b, keep0 t = .ok b ∧ keep1 t = .ok (!b)) →
      filterLoop keep0 l = .ok A → filterLoop keep1 l = .ok B →
      (∀ t, A.count t + B.count t = l.count t) ∧
        A.length + B.length = l.length := by
  intro l
  induction l with
  | nil =>
      intro A B _ hA hB
      cases hA
      cases hB
      exact ⟨fun t => rfl, rfl⟩
  | cons x rest ih =>
      intro A B hptw hA hB
      obtain ⟨b, h0, h1⟩ := hptw x (List.mem_cons_self x rest)
      unfold filterLoop at hA hB
      rw [h0] at hA
      rw [h1] at hB
      have hsub : ∀ t ∈ rest, ∃ b, keep0 t = .ok b ∧ keep1 t = .ok (!b) :=
        fun t ht => hptw t (List.mem_cons_of_mem x ht)
      cases b
      · replace hA : filterLoop keep0 rest = .ok A := hA
        replace hB : (match filterLoop keep1 rest with
          | .error e => (.error e : Except String (List Transaction))
          | .ok r => .ok (x :: r)) = .ok B := hB
        cases hr : filterLoop keep1 rest with
        | error e =>
            rw [hr] at hB
            cases hB
        | ok B' =>
            rw [hr] at hB
            cases hB
            obtain ⟨hcnt, hlen⟩ := ih A B' hsub hA hr
            refine ⟨?_, ?_⟩
            · intro t
              rw [List.count_cons, List.count_cons]
              have := hcnt t
              omega
            · simp only [List.length_cons]
              omega
      · replace hA : (match filterLoop keep0 rest with
          | .error e => (.error e : Except String (List Transaction))
          | .ok r => .ok (x :: r)) = .ok A := hA
        replace hB : filterLoop keep1 rest = .ok B := hB
        cases hr : filterLoop keep0 rest with
        | error e =>
            rw [hr] at hA
            cases hA
        | ok A' =>
            rw [hr] at hA
            cases hA
            obtain ⟨hcnt, hlen⟩ := ih A' B hsub hr hB
            refine ⟨?_, ?_⟩
            · intro t
              rw [List.count_cons, List.count_cons]
              have := hcnt t
              omega
            · simp only [List.length_cons]
              omega

/-- The partition argument for a single criterion, abstracted over the
criterion's reduced check function. -/
theorem filter_single_partition (C : List Transaction) (h2 : 2 ≤ C.length)
    (kwA kwB : List (String × CritVal))
    (hfindA : (kwA.find? (fun p => !(ALLOWED_KEYS.contains p.1))) = none)
    (hfindB : (kwB.find? (fun p => !(ALLOWED_KEYS.contains p.1))) = none)
    (hnegA : lookupKw kwA ("negate") = none)
    (hnegB : lookupKw kwB ("negate") = some (.vBool true))
    (chkf : Bool → Transaction → Except String Bool)
    (hredA : ∀ t, keepT kwA false (Transactions.maxDate C) t = chkf false t)
    (hredB : ∀ t, keepT kwB true (Transactions.maxDate C) t = chkf true t)
    (hcompl : ∀ t, ComplementaryAt (fun neg => chkf neg t))
    (A B : List Transaction)
    (hA : Transactions.filter kwA C = .ok A)
    (hB : Transactions.filter kwB C = .ok B) :
    (∀ t, t ∈ A → t ∉ B) ∧ (∀ t, A.count t + B.count t = C.count t) ∧
      A.length + B.length = C.length := by
  have hnl : ¬ C.length < 2 := by omega
  unfold Transactions.filter at hA hB
  rw [hfindA, if_neg hnl, hnegA] at hA
  rw [hfindB, if_neg hnl, hnegB] at hB
  replace hA : filterLoop (keepT kwA false (Transactions.maxDate C)) C =
      .ok A := hA
  replace hB : filterLoop (keepT kwB true (Transactions.maxDate C)) C =
      .ok B := hB
  rw [funext hredA] at hA
  rw [funext hredB] at hB
  have hptw : ∀ t ∈ C, ∃ b, (fun t => chkf false t) t = .ok b ∧
      (fun t => chkf true t) t = .ok (!b) := by
    intro t ht
    rcases hcompl t with ⟨e, he0, he1⟩ | ⟨b, hb0, hb1⟩
    · obtain ⟨b, hb⟩ := filterLoop_ok_forall _ C A hA t ht
      exfalso
      have he0' : chkf false t = .error e := he0
      rw [he0'] at hb
      cases hb
    · exact ⟨b, hb0, hb1⟩
  obtain ⟨hcnt, hlen⟩ := filterLoop_count _ _ C A B hptw hA hB
  refine ⟨?_, hcnt, hlen⟩
  intro t htA htB
  obtain ⟨htAl, hkA⟩ := filterLoop_sound _ C A hA t htA
  obtain ⟨_, hkB⟩ := filterLoop_sound _ C B hB t htB
  obtain ⟨b, hb0, hb1⟩ := hptw t htAl
  have hb0' : chkf false t = .ok b := hb0
  have hb1' : chkf true t = .ok (!b) := hb1
  have hb : b = true := by
    rw [hb0'] at hkA
    exact Except.ok.inj hkA
  rw [hb] at hb1'
  rw [hb1'] at hkB
  cases hkB

/-- C1 (amended): for a collection of at least two transactions and a
single criterion of a complementary shape (bank/account/name/desc/note
strings, tags string or list, amount sign tokens or numeric range, date
int/bool/exact/range or single-component string), the transactions kept by
the filter and by its negation partition the collection: no transaction is
in both results, and multiset counts and lengths add up.  (Collections of
size at most 1 bypass filtering entirely, the balance key constrains
nothing, unrecognized amount strings constrain nothing, and negated
multi-component date strings can drop transactions from both results; see
the counterexample.) -/
theorem claim1_amended (C : List Transaction) (h2 : 2 ≤ C.length)
    (k : String) (v : CritVal) (hg : goodCrit k v = true)
    (A B : List Transaction)
    (hA : Transactions.filter [(k, v)] C = .ok A)
    (hB : Transactions.filter [(k, v), (("negate"), .vBool true)] C =
      .ok B) :
    (∀ t, t ∈ A → t ∉ B) ∧
    (∀ t, A.count t + B.count t = C.count t) ∧
    A.length + B.length = C.length := by
  unfold goodCrit at hg
  simp only [Bool.or_eq_true, Bool.and_eq_true] at hg
  rcases hg with ((⟨hk5, hsh⟩ | ⟨hk, hsh⟩) | ⟨hk, hsh⟩) | ⟨hk, hsh⟩
  · rcases hk5 with (((h | h) | h) | h) | h
    · have hkk : k = ("bank") := eq_of_beq h
      subst hkk
      exact filter_single_partition C h2 [(("bank"), v)]
        [(("bank"), v), (("negate"), .vBool true)] rfl rfl rfl rfl
        (fun neg t => checkBank v neg t)
        (fun t => by
          rw [show keepT [(("bank"), v)] false (Transactions.maxDate C) t =
            chk (some v) (fun w => checkBank w false t) (.ok true)
            from rfl]
          exact chk_some_trivial _ v)
        (fun t => by
          rw [show keepT [(("bank"), v), (("negate"), .vBool true)] true
              (Transactions.maxDate C) t =
            chk (some v) (fun w => checkBank w true t) (.ok true)
            from rfl]
          exact chk_some_trivial _ v)
        (fun t => checkBank_compl v t) A B hA hB
    · have hkk : k = ("account") := eq_of_beq h
      subst hkk
      exact filter_single_partition C h2 [(("account"), v)]
        [(("account"), v), (("negate"), .vBool true)] rfl rfl rfl rfl
        (fun neg t => checkAccount v neg t)
        (fun t => by
          rw [show keepT [(("account"), v)] false
              (Transactions.maxDate C) t =
            chk (some v) (fun w => checkAccount w false t) (.ok true)
            from rfl]
          exact chk_some_trivial _ v)
        (fun t => by
          rw [show keepT [(("account"), v), (("negate"), .vBool true)] true
              (Transactions.maxDate C) t =
            chk (some v) (fun w => checkAccount w true t) (.ok true)
            from rfl]
          exact chk_some_trivial _ v)
        (fun t => checkAccount_compl v t) A B hA hB
    · have hkk : k = ("name") := eq_of_beq h
      subst hkk
      exact filter_single_partition C h2 [(("name"), v)]
        [(("name"), v), (("negate"), .vBool true)] rfl rfl rfl rfl
        (fun neg t => checkName v neg t)
        (fun t => by
          rw [show keepT [(("name"), v)] false (Transactions.maxDate C) t =
            chk (some v) (fun w => checkName w false t) (.ok true)
            from rfl]
          exact chk_some_trivial _ v)
        (fun t => by
          rw [show keepT [(("name"), v), (("negate"), .vBool true)] true
              (Transactions.maxDate C) t =
            chk (some v) (fun w => checkName w true t) (.ok true)
            from rfl]
          exact chk_some_trivial _ v)
        (fun t => checkName_compl v t) A B hA hB
    · have hkk : k = ("desc") := eq_of_beq h
      subst hkk
      exact filter_single_partition C h2 [(("desc"), v)]
        [(("desc"), v), (("negate"), .vBool true)] rfl rfl rfl rfl
        (fun neg t => checkDesc v neg t)
        (fun t => by
          rw [show keepT [(("desc"), v)] false (Transactions.maxDate C) t =
            chk (some v) (fun w => checkDesc w false t) (.ok true)
            from rfl]
          exact chk_some_trivial _ v)
        (fun t => by
          rw [show keepT [(("desc"), v), (("negate"), .vBool true)] true
              (Transactions.maxDate C) t =
            chk (some v) (fun w => checkDesc w true t) (.ok true)
            from rfl]
          exact chk_some_trivial _ v)
        (fun t => checkDesc_compl v t) A B hA hB
    · have hkk : k = ("note") := eq_of_beq h
      subst hkk
      exact filter_single_partition C h2 [(("note"), v)]
        [(("note"), v), (("negate"), .vBool true)] rfl rfl rfl rfl
        (fun neg t => checkNote v neg t)
        (fun t => by
          rw [show keepT [(("note"), v)] false (Transactions.maxDate C) t =
            chk (some v) (fun w => checkNote w false t) (.ok true)
            from rfl]
          exact chk_some_trivial _ v)
        (fun t => by
          rw [show keepT [(("note"), v), (("negate"), .vBool true)] true
              (Transactions.maxDate C) t =
            chk (some v) (fun w => checkNote w true t) (.ok true)
            from rfl]
          exact chk_some_trivial _ v)
        (fun t => checkNote_compl v t) A B hA hB
  · have hkk : k = ("tags") := eq_of_beq hk
    subst hkk
    exact filter_single_partition C h2 [(("tags"), v)]
      [(("tags"), v), (("negate"), .vBool true)] rfl rfl rfl rfl
      (fun neg t => checkTags v neg t)
      (fun t => by
        rw [show keepT [(("tags"), v)] false (Transactions.maxDate C) t =
          chk (some v) (fun w => checkTags w false t) (.ok true)
          from rfl]
        exact chk_some_trivial _ v)
      (fun t => by
        rw [show keepT [(("tags"), v), (("negate"), .vBool true)] true
            (Transactions.maxDate C) t =
          chk (some v) (fun w => checkTags w true t) (.ok true)
          from rfl]
        exact chk_some_trivial _ v)
      (fun t => checkTags_compl v t) A B hA hB
  · have hkk : k = ("amount") := eq_of_beq hk
    subst hkk
    exact filter_single_partition C h2 [(("amount"), v)]
      [(("amount"), v), (("negate"), .vBool true)] rfl rfl rfl rfl
      (fun neg t => checkAmount v neg t)
      (fun t => by
        rw [show keepT [(("amount"), v)] false (Transactions.maxDate C) t =
          chk (some v) (fun w => checkAmount w false t) (.ok true)
          from rfl]
        exact chk_some_trivial _ v)
      (fun t => by
        rw [show keepT [(("amount"), v), (("negate"), .vBool true)] true
            (Transactions.maxDate C) t =
          chk (some v) (fun w => checkAmount w true t) (.ok true)
          from rfl]
        exact chk_some_trivial _ v)
      (fun t => checkAmount_compl v t hsh) A B hA hB
  · have hkk : k = ("date") := eq_of_beq hk
    subst hkk
    exact filter_single_partition C h2 [(("date"), v)]
      [(("date"), v), (("negate"), .vBool true)] rfl rfl rfl rfl
      (fun neg t => checkDate v neg (Transactions.maxDate C) t)
      (fun t => by
        rw [show keepT [(("date"), v)] false (Transactions.maxDate C) t =
          chk (some v)
            (fun w => checkDate w false (Transactions.maxDate C) t)
            (.ok true) from rfl]
        exact chk_some_trivial _ v)
      (fun t => by
        rw [show keepT [(("date"), v), (("negate"), .vBool true)] true
            (Transactions.maxDate C) t =
          chk (some v)
            (fun w => checkDate w true (Transactions.maxDate C) t)
            (.ok true) from rfl]
        exact chk_some_trivial _ v)
      (fun t => checkDate_compl v (Transactions.maxDate C) t hsh) A B hA hB

/-- C1 witness: the spec's deposit scenario on two transactions; the two
filter results are computed, the partition facts follow from the amended
theorem. -/
theorem claim1_witness :
    Transactions.filter [(("amount"), .vStr ("deposit"))]
      [fixT1, fixT2] = .ok [fixT2] ∧
    Transactions.filter [(("amount"), .vStr ("deposit")),
      (("negate"), .vBool true)] [fixT1, fixT2] = .ok [fixT1] ∧
    (fixT2 ∈ ([fixT2] : List Transaction) →
      fixT2 ∉ ([fixT1] : List Transaction)) ∧
    ([fixT2] : List Transaction).length +
      ([fixT1] : List Transaction).length =
      ([fixT1, fixT2] : List Transaction).length := by
  have hA : Transactions.filter [(("amount"), .vStr ("deposit"))]
      [fixT1, fixT2] = .ok [fixT2] := by decide
  have hB : Transactions.filter [(("amount"), .vStr ("deposit")),
      (("negate"), .vBool true)] [fixT1, fixT2] = .ok [fixT1] := by decide
  have h := claim1_amended [fixT1, fixT2] (by decide) ("amount")
    (.vStr ("deposit")) (by decide) [fixT2] [fixT1] hA hB
  exact ⟨hA, hB, h.1 fixT2, h.2.2⟩

end TCat
